import Mathlib

/-!
Verification of the Talken Stable Vault yield engine against its source:
the `DefiLlamaService` (pool feed client, pool filter, strategy selector,
weight allocator) and the `APYEngine` (vault state tracker, rebalance
decision).

Numbers are modelled as rationals (`ℚ`).  JavaScript division is total and
produces `NaN`/`Infinity` on a zero denominator; in this embedding `q / 0 = 0`.
The two agree on every final output of the embedded functions whenever the
relevant APY inputs are nonnegative (as the upstream 5%-floor filter
guarantees), because each place a zero denominator can reach an output the
numerator is then also zero, and the resulting JavaScript `NaN` is collapsed
to `0` by the `x || 0` coercion in the result mapping, which we model by
`jsOrZero`.  Where the distinction matters (the realized-APY calculation,
which has no such coercion), non-finite results are modelled explicitly with
`Option ℚ` (`none` standing for `NaN`/`±Infinity`).

Strings are modelled by Lean `String`, with explicit ASCII versions of the
JavaScript operations used by the source (`toUpperCase`, `toLowerCase`,
`trim`, `includes`, `split('-')`).
-/

namespace TSV

/-- JS `String.prototype.toUpperCase` (ASCII). -/
def jsToUpper (s : String) : String := String.mk (s.data.map Char.toUpper)

/-- JS `String.prototype.toLowerCase` (ASCII). -/
def jsToLower (s : String) : String := String.mk (s.data.map Char.toLower)

/-- `startsWith l sub`: `sub` is a leading piece of `l`. -/
def startsWith : List Char → List Char → Bool
  | _, [] => true
  | [], _ :: _ => false
  | c :: cs, d :: ds => c = d && startsWith cs ds

/-- `containsChars l sub`: `sub` occurs contiguously inside `l`. -/
def containsChars : List Char → List Char → Bool
  | [], sub => sub.isEmpty
  | c :: cs, sub => startsWith (c :: cs) sub || containsChars cs sub

/-- JS `s.includes(sub)`: substring test. -/
def jsIncludes (s sub : String) : Bool := containsChars s.data sub.data

/-- JS `String.prototype.trim` (ASCII whitespace). -/
def jsTrim (s : String) : String :=
  String.mk (((s.data.dropWhile Char.isWhitespace).reverse.dropWhile Char.isWhitespace).reverse)

/-- JS `s.split('-')` on the character list: always returns at least one
(possibly empty) piece, like the JavaScript original. -/
def splitOnDash : List Char → List (List Char)
  | [] => [[]]
  | c :: cs =>
    if c = '-' then [] :: splitOnDash cs
    else
      match splitOnDash cs with
      | [] => [[c]]
      | t :: ts => (c :: t) :: ts

/-- JS `x || y` for numbers: `x` unless `x` is falsy (`0`), then `y`.
(The JavaScript `NaN` case is handled where it can arise; see the header.) -/
def jsOrNum (x : Option ℚ) (y : ℚ) : ℚ :=
  match x with
  | some v => if v = 0 then y else v
  | none => y

/-- JS `x || 0` applied to an already-present number. -/
def jsOrZero (x : ℚ) : ℚ := if x = 0 then 0 else x

@[simp] theorem jsOrZero_eq (x : ℚ) : jsOrZero x = x := by
  unfold jsOrZero; split <;> simp_all

/-! ### Upstream pool records and chain configuration (source: defiLlamaService) -/

/-- One upstream-reported pool (the fields of `DefiLlamaPool` the service reads).
Optional upstream fields are `Option ℚ`. -/
structure DefiLlamaPool where
  chain : String
  project : String
  symbol : String
  tvlUsd : ℚ
  apyBase : Option ℚ
  apyReward : Option ℚ
  apy : ℚ
  apyMean30d : Option ℚ
  stablecoin : Bool
  pool : String
deriving Repr, DecidableEq

structure ChainConfig where
  chain : String
  assets : List String
  chainFilter : String
deriving Repr, DecidableEq

def CHAIN_CONFIGS : List ChainConfig :=
  [ { chain := "arbitrum", assets := ["USDT0", "USDT", "USDC", "DAI"], chainFilter := "Arbitrum" },
    { chain := "ethereum", assets := ["USDT", "USDC", "DAI", "USDE", "FRAX"], chainFilter := "Ethereum" },
    { chain := "base", assets := ["USDC", "USDT", "DAI"], chainFilter := "Base" },
    { chain := "plasma", assets := ["USDC", "USDT"], chainFilter := "Plasma" },
    { chain := "solana", assets := ["USDC", "USDT"], chainFilter := "Solana" },
    { chain := "bsc", assets := ["USDT", "USDC", "BUSD"], chainFilter := "BSC" } ]

def PREFERRED_PROTOCOLS : List String :=
  ["aave-v3", "curve", "pendle", "fraxlend", "balancer", "uniswap-v3", "compound-v3", "ethena", "yearn"]

/-! ### Pool filter (source: `isStablePair`, `getPoolsForChain`) -/

def stablecoins : List String :=
  ["USDT", "USDC", "DAI", "USDT0", "USDS", "FRAX", "USDP",
   "GUSD", "SUSD", "USDE", "USD1", "LUSD", "USDM", "USDB",
   "FDUSD", "PYUSD", "CUSD", "USDX"]

def excludeTokens : List String :=
  ["DAILYBET", "BTC", "ETH", "SOL", "BNB", "MATIC", "AVAX", "ARB",
   "OP", "LINK", "UNI", "AAVE", "CRV", "SUSHI", "COMP", "YFI",
   "MKR", "SNX", "BAL", "LDO", "RPL", "RETH", "WETH", "WBTC",
   "STETH", "WSTETH", "RNDR", "PEPE", "SHIB", "DOGE", "XRP"]

/-- Source: the inner helper of `isStablePair` — a token is an exact stablecoin,
allowing a `.E` or `ET` appendix (like `USDC.E`, `USDCET`). -/
def isExactStablecoin (token : String) : Bool :=
  stablecoins.any fun stable =>
    token == stable || token == stable ++ ".E" || token == stable ++ "ET"

/-- The tokens of an (uppercased, trimmed) symbol: the `-`-separated pieces,
each trimmed, as in `upperSymbol.split('-').map(t => t.trim())`. -/
def symbolTokens (upperSymbol : String) : List String :=
  (splitOnDash upperSymbol.data).map fun t => jsTrim (String.mk t)

/-- Source: `DefiLlamaService.isStablePair`. -/
def isStablePair (symbol : String) : Bool :=
  let upperSymbol := jsTrim (jsToUpper symbol)
  if excludeTokens.any (fun excluded => jsIncludes upperSymbol excluded) then false
  else if jsIncludes upperSymbol "-" then
    (symbolTokens upperSymbol).all fun token => isExactStablecoin token
  else isExactStablecoin upperSymbol

/-- The per-pool predicate applied by `getPoolsForChain` for a given chain
configuration (the body of the `allPools.filter` callback). -/
def poolKeep (config : ChainConfig) (pool : DefiLlamaPool) : Bool :=
  let matchesChain := jsIncludes (jsToLower pool.chain) (jsToLower config.chainFilter)
  let matchesAsset := config.assets.any fun asset =>
    jsIncludes (jsToUpper pool.symbol) (jsToUpper asset)
  let isStablecoinFlag := pool.stablecoin == true
  let stablePair := isStablePair pool.symbol
  let hasPositiveAPY : Bool := decide (0 < pool.apy)
  let hasMinTVL : Bool := decide ((200000 : ℚ) ≤ pool.tvlUsd)
  matchesChain && matchesAsset && isStablecoinFlag && stablePair && hasPositiveAPY && hasMinTVL

/-- Source: `DefiLlamaService.getPoolsForChain` (the pure filtering part;
the pool list stands for the result of `fetchPools`). -/
def getPoolsForChain (chain : String) (allPools : List DefiLlamaPool) : List DefiLlamaPool :=
  match CHAIN_CONFIGS.find? (fun c => c.chain == chain) with
  | none => []
  | some config => allPools.filter (poolKeep config)

/-! ### Strategies (source: `getTopStrategies`, `calculateNetAPY`) -/

structure Strategy where
  id : String
  chain : String
  protocol : String
  poolId : String
  asset : String
  apyBase : ℚ
  apyReward : ℚ
  apyGross : ℚ
  apyNet : ℚ
  apyMean30d : ℚ
  tvl : ℚ
  cap : ℚ
  allocated : ℚ
  weight : ℚ
  lastUpdate : ℚ
deriving Repr, DecidableEq

/-- Source: `DefiLlamaService.calculateNetAPY` (the default `feeBps` is 10). -/
def calculateNetAPY (grossAPY : ℚ) (feeBps : ℚ) : ℚ :=
  let feeImpact := feeBps / 10000
  grossAPY * (1 - feeImpact)

/-- The per-pool mapping done inside `getTopStrategies` (`now` stands for
`Date.now()`).  The `||`-fallbacks of the source are modelled by `jsOrNum`. -/
def poolToStrategy (chain : String) (now : ℚ) (pool : DefiLlamaPool) : Strategy :=
  { id := pool.pool
    chain := chain
    protocol := pool.project
    poolId := pool.pool
    asset := pool.symbol
    apyBase := jsOrNum pool.apyBase 0
    apyReward := jsOrNum pool.apyReward 0
    apyGross := pool.apy
    apyNet := calculateNetAPY pool.apy 10
    apyMean30d := jsOrNum pool.apyMean30d (jsOrNum pool.apyBase 0)
    tvl := pool.tvlUsd
    cap := 0
    allocated := 0
    weight := 0
    lastUpdate := now }

def MIN_AVG_APY : ℚ := 5

/-- Stable descending insertion: an element is placed before the first
strictly-smaller key, after equal keys — exactly the (unique) result of the
stable JS `sort((a, b) => key b - key a)`. -/
def insertByDesc (key : α → ℚ) (x : α) : List α → List α
  | [] => [x]
  | y :: ys => if key y ≤ key x then x :: y :: ys else y :: insertByDesc key x ys

/-- Stable descending sort by a rational key. -/
def sortByDesc (key : α → ℚ) : List α → List α
  | [] => []
  | x :: xs => insertByDesc key x (sortByDesc key xs)

/-- The `validStrategies` list of `getTopStrategies`: the mapped pools with
`apyMean30d < MIN_AVG_APY` dropped (`strategies.filter(s => s.apyMean30d >= MIN_AVG_APY)`). -/
def eligibleStrategies (chain : String) (now : ℚ) (pools : List DefiLlamaPool) : List Strategy :=
  ((getPoolsForChain chain pools).map (poolToStrategy chain now)).filter fun s =>
    decide (MIN_AVG_APY ≤ s.apyMean30d)

/-- Source: `DefiLlamaService.getTopStrategies` (the pure part after
`getPoolsForChain`): map pools to strategies, drop `apyMean30d < 5`, sort by
`apyMean30d` descending, keep the first `limit`. -/
def getTopStrategies (chain : String) (limit : Nat) (now : ℚ)
    (pools : List DefiLlamaPool) : List Strategy :=
  (sortByDesc Strategy.apyMean30d (eligibleStrategies chain now pools)).take limit

/-! ### Strategy selection (source: `calculateOptimalWeights`) -/

/-- A strategy as decorated at the start of `calculateOptimalWeights`
(`{...s, isPreferred, boostedAPY}`). -/
structure BStrategy where
  s : Strategy
  isPreferred : Bool
  boostedAPY : ℚ
deriving Repr, DecidableEq

def toBoosted (s : Strategy) : BStrategy :=
  { s := s
    isPreferred := PREFERRED_PROTOCOLS.any fun p => jsIncludes (jsToLower s.protocol) p
    boostedAPY := s.apyMean30d }

def MAX_STRATEGIES : Nat := 20
def TARGET_COVERAGE : ℚ := 9 / 10
def PREFERRED_COUNT : Nat := 10
def OTHER_COUNT : Nat := 0
def PREFERRED_TARGET : ℚ := 1
def OTHER_TARGET : ℚ := 0

/-- Source: the base-asset extraction in the EVM branch:
`asset.split('-')[0].replace(/\.(E|ET)$/, '').replace(/0$/, '')`. -/
def baseAssetOf (asset : String) : String :=
  let first := ((splitOnDash asset.data).headD [])
  let noDotE :=
    if (['.', 'E', 'T'] : List Char).isSuffixOf first then first.take (first.length - 3)
    else if (['.', 'E'] : List Char).isSuffixOf first then first.take (first.length - 2)
    else first
  let noZero :=
    if (['0'] : List Char).isSuffixOf noDotE then noDotE.take (noDotE.length - 1)
    else noDotE
  String.mk noZero

/-- Source: `` `${strategy.protocol}:${baseAsset}:${strategy.chain}` ``. -/
def jsKey (b : BStrategy) : String :=
  b.s.protocol ++ ":" ++ baseAssetOf b.s.asset ++ ":" ++ b.s.chain

/-- Source: the preferred-selection loop of the EVM branch: walk the sorted
preferred strategies, cap the count, skip an already-used
protocol:baseAsset:chain key.  The `Nat` is the remaining capacity. -/
def selectPref : Nat → List String → List BStrategy → List BStrategy
  | _, _, [] => []
  | 0, _, _ => []
  | Nat.succ n, used, b :: rest =>
    if used.contains (jsKey b) then selectPref (n + 1) used rest
    else b :: selectPref n (jsKey b :: used) rest

/-- Source: the other-selection loop of the EVM branch: at most one strategy
per protocol, capped at `otherNeeded`. -/
def selectOther : Nat → List String → List BStrategy → List BStrategy
  | _, _, [] => []
  | 0, _, _ => []
  | Nat.succ n, used, b :: rest =>
    if used.contains b.s.protocol then selectOther (n + 1) used rest
    else b :: selectOther n (b.s.protocol :: used) rest

/-- Source: the EVM (`isEVM`) selection of `calculateOptimalWeights`. -/
def evmSelect (boostedStrategies : List BStrategy) : List BStrategy :=
  let preferredStrategies := boostedStrategies.filter (·.isPreferred)
  let otherStrategies := boostedStrategies.filter fun b => !b.isPreferred
  let preferredSelected := selectPref PREFERRED_COUNT [] preferredStrategies
  let otherNeeded := OTHER_COUNT + (PREFERRED_COUNT - preferredSelected.length)
  let otherSelected := selectOther otherNeeded [] otherStrategies
  preferredSelected ++ otherSelected

/-- Source: the non-EVM greedy loop: push the strategy, then stop once
`totalSelectedAPY / totalPossibleAPY` reaches the coverage target; also stop
at the strategy cap (`Nat` = remaining capacity). -/
def stdSelectGo (totalPossibleAPY : ℚ) : Nat → ℚ → List BStrategy → List BStrategy
  | _, _, [] => []
  | 0, _, _ => []
  | Nat.succ n, totalSelectedAPY, b :: rest =>
    let tot' := totalSelectedAPY + b.boostedAPY
    if TARGET_COVERAGE ≤ tot' / totalPossibleAPY then [b]
    else b :: stdSelectGo totalPossibleAPY n tot' rest

/-- Source: the non-EVM selection of `calculateOptimalWeights`. -/
def stdSelect (boostedStrategies : List BStrategy) : List BStrategy :=
  let totalPossibleAPY := (boostedStrategies.map (·.boostedAPY)).sum
  stdSelectGo totalPossibleAPY MAX_STRATEGIES 0 boostedStrategies

def EVM_CHAINS : List String := ["arbitrum", "ethereum", "base", "plasma"]

/-- Source: `chain === 'arbitrum' || chain === 'ethereum' || chain === 'base' || chain === 'plasma'`. -/
def isEVMChain (chain : Option String) : Bool :=
  chain == some "arbitrum" || chain == some "ethereum" || chain == some "base" ||
    chain == some "plasma"

/-- The decorate-and-sort step at the head of `calculateOptimalWeights`. -/
def boostAndSort (strategies : List Strategy) : List BStrategy :=
  sortByDesc BStrategy.boostedAPY (strategies.map toBoosted)

/-- The selection computed by `calculateOptimalWeights` for a given chain. -/
def selectedFor (strategies : List Strategy) (chain : Option String) : List BStrategy :=
  if isEVMChain chain then evmSelect (boostAndSort strategies)
  else stdSelect (boostAndSort strategies)

/-! ### Weight allocation (source: the tail of `calculateOptimalWeights`) -/

/-- An entry of the `weighted` array (`{...s, weight, allocated}`). -/
structure WEntry where
  b : BStrategy
  weight : ℚ
  allocated : ℚ
deriving Repr, DecidableEq

/-- The preferred-group map callback of the EVM weight computation:
`{...s, weight: (s.boostedAPY / preferredTotalAPY) * PREFERRED_TARGET, allocated: ... * totalTVL}`. -/
def prefEntry (preferredTotalAPY totalTVL : ℚ) (s : BStrategy) : WEntry :=
  { b := s
    weight := s.boostedAPY / preferredTotalAPY * PREFERRED_TARGET
    allocated := s.boostedAPY / preferredTotalAPY * PREFERRED_TARGET * totalTVL }

/-- The other-group map callback of the EVM weight computation. -/
def otherEntry (otherTotalAPY totalTVL : ℚ) (s : BStrategy) : WEntry :=
  { b := s
    weight := s.boostedAPY / otherTotalAPY * OTHER_TARGET
    allocated := s.boostedAPY / otherTotalAPY * OTHER_TARGET * totalTVL }

/-- The map callback of the standard (non-EVM) weight computation. -/
def stdEntry (totalSelectedAPY totalTVL : ℚ) (s : BStrategy) : WEntry :=
  { b := s
    weight := s.boostedAPY / totalSelectedAPY
    allocated := s.boostedAPY / totalSelectedAPY * totalTVL }

/-- Source: the EVM weight computation: within the preferred group weight is
`(boostedAPY / preferredTotalAPY) * PREFERRED_TARGET`, within the other group
`(boostedAPY / otherTotalAPY) * OTHER_TARGET`. -/
def evmWeights (selected : List BStrategy) (totalTVL : ℚ) : List WEntry :=
  let preferredSelected := selected.filter (·.isPreferred)
  let otherSelected := selected.filter fun b => !b.isPreferred
  let preferredTotalAPY := (preferredSelected.map (·.boostedAPY)).sum
  let otherTotalAPY := (otherSelected.map (·.boostedAPY)).sum
  preferredSelected.map (prefEntry preferredTotalAPY totalTVL) ++
    otherSelected.map (otherEntry otherTotalAPY totalTVL)

/-- Source: the standard (non-EVM) weight computation. -/
def stdWeights (selected : List BStrategy) (totalTVL : ℚ) : List WEntry :=
  let totalSelectedAPY := (selected.map (·.boostedAPY)).sum
  selected.map (stdEntry totalSelectedAPY totalTVL)

/-- The `weighted` array computed by `calculateOptimalWeights`. -/
def weightedFor (strategies : List Strategy) (totalTVL : ℚ) (chain : Option String) :
    List WEntry :=
  if isEVMChain chain then evmWeights (selectedFor strategies chain) totalTVL
  else stdWeights (selectedFor strategies chain) totalTVL

/-- Source: `new Map(weighted.map(s => [s.id, ...]))` followed by `.get(id)` —
later entries overwrite earlier ones, so the last matching entry wins. -/
def weightMapGet (weighted : List WEntry) (id : String) : Option WEntry :=
  weighted.foldl (fun acc w => if w.b.s.id == id then some w else acc) none

/-- Source: the final mapping of `calculateOptimalWeights`: every input
strategy is returned, with `weight: calculated?.weight || 0` and
`allocated: calculated?.allocated || 0`. -/
def remapStrategies (strategies : List Strategy) (weighted : List WEntry) : List Strategy :=
  strategies.map fun s =>
    match weightMapGet weighted s.id with
    | some w => { s with weight := jsOrZero w.weight, allocated := jsOrZero w.allocated }
    | none => { s with weight := 0, allocated := 0 }

/-- Source: `DefiLlamaService.calculateOptimalWeights`. -/
def calculateOptimalWeights (strategies : List Strategy) (totalTVL : ℚ)
    (chain : Option String) : List Strategy :=
  if strategies.isEmpty then []
  else remapStrategies strategies (weightedFor strategies totalTVL chain)

def sumWeights (l : List Strategy) : ℚ := (l.map Strategy.weight).sum

/-! ### Pool feed client (source: `fetchPools`) -/

structure PoolCacheEntry where
  data : List DefiLlamaPool
  timestamp : ℚ
deriving Repr, DecidableEq

inductive FetchOutcome where
  | success (pools : List DefiLlamaPool)
  | failure
deriving Repr, DecidableEq

structure FetchResult where
  pools : List DefiLlamaPool
  cache : Option PoolCacheEntry
  networkCall : Bool
deriving Repr, DecidableEq

def CACHE_TTL : ℚ := 5 * 60 * 1000

/-- Source: `DefiLlamaService.fetchPools`, as a state transformer over the
single `'all-pools'` cache entry.  `now` stands for `Date.now()` and
`upstream` for the outcome of the axios call; `networkCall` records whether
the upstream request was made. -/
def fetchPools (cache : Option PoolCacheEntry) (now : ℚ) (upstream : FetchOutcome) :
    FetchResult :=
  match cache with
  | some cached =>
    if now - cached.timestamp < CACHE_TTL then
      { pools := cached.data, cache := some cached, networkCall := false }
    else
      match upstream with
      | .success ps => { pools := ps, cache := some { data := ps, timestamp := now }, networkCall := true }
      | .failure => { pools := cached.data, cache := some cached, networkCall := true }
  | none =>
    match upstream with
    | .success ps => { pools := ps, cache := some { data := ps, timestamp := now }, networkCall := true }
    | .failure => { pools := [], cache := none, networkCall := true }

/-! ### APY engine (source: apyEngine.ts) -/

structure VaultState where
  totalAssets : Int
  totalShares : Int
  lastPricePerShare : ℚ
  lastUpdateTime : ℚ
deriving Repr, DecidableEq

/-- Source: `APYEngine.calculateRealAPY`.  The result is `none` when the
JavaScript original produces a non-finite number (`NaN` or `±Infinity`),
which happens exactly when `priceChange / lastPricePerShare` divides by
zero; otherwise `some` of the exact value. -/
def calculateRealAPY (state : Option VaultState) (now : ℚ) (currentPricePerShare : ℚ) :
    Option ℚ :=
  match state with
  | none => some 0
  | some st =>
    let timeDelta := (now - st.lastUpdateTime) / 1000
    if timeDelta = 0 then some 0
    else
      let priceChange := currentPricePerShare - st.lastPricePerShare
      if st.lastPricePerShare = 0 then none
      else
        let priceChangeRate := priceChange / st.lastPricePerShare
        let secondsPerYear : ℚ := 365 * 24 * 60 * 60
        some (priceChangeRate / timeDelta * secondsPerYear * 100)

/-- Source: `APYEngine.calculateModelAPY`. -/
def calculateModelAPY (strategies : List Strategy) : ℚ :=
  if strategies.isEmpty then 0
  else (strategies.map fun s => s.apyNet * s.weight).sum

structure VaultYield where
  vault : String
  chain : String
  asset : String
  apyModel : ℚ
  apyReal : ℚ
  totalAllocated : ℚ
  totalTVL : ℚ
  strategies : List Strategy
  lastUpdate : ℚ
deriving Repr, DecidableEq

/-- The mutable state of an `APYEngine` instance: its two `Map`s, as
association lists with unique keys. -/
structure EngineState where
  vaultStates : List (String × VaultState)
  currentAPYs : List (String × VaultYield)
deriving Repr, DecidableEq

/-- Source: `APYEngine.triggerRebalanceIfNeeded`.  The method only reads
`currentAPYs`; the returned state is the (unchanged) engine state. -/
def triggerRebalanceIfNeeded (st : EngineState) (vaultId : String) (threshold : ℚ) :
    Bool × EngineState :=
  match st.currentAPYs.lookup vaultId with
  | none => (false, st)
  | some vaultAPY =>
    let apyDiff := |vaultAPY.apyModel - vaultAPY.apyReal|
    (decide (threshold < apyDiff), st)

/-! ## Helper lemmas: the stable sort -/

theorem insertByDesc_perm (key : α → ℚ) (x : α) (l : List α) :
    (insertByDesc key x l).Perm (x :: l) := by
  induction l with
  | nil => simp [insertByDesc]
  | cons y ys ih =>
    unfold insertByDesc
    split
    · exact .refl _
    · exact .trans (.cons y ih) (.swap x y ys)

theorem sortByDesc_perm (key : α → ℚ) (l : List α) : (sortByDesc key l).Perm l := by
  induction l with
  | nil => simp [sortByDesc]
  | cons x xs ih => exact .trans (insertByDesc_perm key x _) (.cons x ih)

theorem insertByDesc_pairwise (key : α → ℚ) (x : α) (l : List α)
    (h : l.Pairwise fun a b => key b ≤ key a) :
    (insertByDesc key x l).Pairwise fun a b => key b ≤ key a := by
  induction l with
  | nil => simp [insertByDesc]
  | cons y ys ih =>
    unfold insertByDesc
    split
    · rename_i hle
      refine .cons ?_ h
      intro z hz
      rcases List.mem_cons.1 hz with hz | hz
      · exact hz ▸ hle
      · exact le_trans ((List.pairwise_cons.1 h).1 z hz) hle
    · rename_i hgt
      push_neg at hgt
      rcases List.pairwise_cons.1 h with ⟨hy, hys⟩
      refine List.pairwise_cons.2 ⟨?_, ih hys⟩
      intro z hz
      have hz' := (insertByDesc_perm key x ys).mem_iff.1 hz
      rcases List.mem_cons.1 hz' with hz' | hz'
      · exact hz' ▸ hgt.le
      · exact hy z hz'

theorem sortByDesc_pairwise (key : α → ℚ) (l : List α) :
    (sortByDesc key l).Pairwise fun a b => key b ≤ key a := by
  induction l with
  | nil => simp [sortByDesc]
  | cons x xs ih => exact insertByDesc_pairwise key x _ ih

theorem sortByDesc_eq_self (key : α → ℚ) (l : List α)
    (h : l.Pairwise fun a b => key b ≤ key a) : sortByDesc key l = l := by
  induction l with
  | nil => rfl
  | cons x xs ih =>
    rcases List.pairwise_cons.1 h with ⟨hx, hxs⟩
    unfold sortByDesc
    rw [ih hxs]
    cases xs with
    | nil => rfl
    | cons y ys =>
      unfold insertByDesc
      rw [if_pos (hx y (by simp))]

theorem sortByDesc_idem (key : α → ℚ) (l : List α) :
    sortByDesc key (sortByDesc key l) = sortByDesc key l :=
  sortByDesc_eq_self key _ (sortByDesc_pairwise key l)

theorem insertByDesc_map (ka : α → ℚ) (kb : β → ℚ) (f : α → β)
    (hf : ∀ a, kb (f a) = ka a) (x : α) (l : List α) :
    insertByDesc kb (f x) (l.map f) = (insertByDesc ka x l).map f := by
  induction l with
  | nil => simp [insertByDesc]
  | cons y ys ih =>
    simp only [List.map_cons]
    unfold insertByDesc
    rw [hf, hf]
    split
    · simp
    · simp [ih]

theorem sortByDesc_map (ka : α → ℚ) (kb : β → ℚ) (f : α → β)
    (hf : ∀ a, kb (f a) = ka a) (l : List α) :
    sortByDesc kb (l.map f) = (sortByDesc ka l).map f := by
  induction l with
  | nil => rfl
  | cons x xs ih =>
    simp only [List.map_cons]
    unfold sortByDesc
    rw [ih, insertByDesc_map ka kb f hf]

/-! ## Helper lemmas: the selection stages produce sub-permutations -/

theorem stdSelectGo_sublist (tp : ℚ) :
    ∀ (n : Nat) (tot : ℚ) (l : List BStrategy), (stdSelectGo tp n tot l).Sublist l := by
  intro n
  induction n with
  | zero => intro tot l; cases l <;> simp [stdSelectGo]
  | succ n ih =>
    intro tot l
    cases l with
    | nil => simp [stdSelectGo]
    | cons b rest =>
      show (if TARGET_COVERAGE ≤ (tot + b.boostedAPY) / tp then [b]
        else b :: stdSelectGo tp n (tot + b.boostedAPY) rest).Sublist (b :: rest)
      split
      · simp [List.nil_sublist rest]
      · exact (ih _ rest).cons₂ b

theorem selectPref_sublist :
    ∀ (n : Nat) (used : List String) (l : List BStrategy), (selectPref n used l).Sublist l := by
  intro n used l
  induction l generalizing n used with
  | nil => cases n <;> simp [selectPref]
  | cons b rest ih =>
    cases n with
    | zero => simp [selectPref]
    | succ n =>
      unfold selectPref
      split
      · exact (ih _ _).cons b
      · exact (ih _ _).cons₂ b

theorem selectOther_sublist :
    ∀ (n : Nat) (used : List String) (l : List BStrategy), (selectOther n used l).Sublist l := by
  intro n used l
  induction l generalizing n used with
  | nil => cases n <;> simp [selectOther]
  | cons b rest ih =>
    cases n with
    | zero => simp [selectOther]
    | succ n =>
      unfold selectOther
      split
      · exact (ih _ _).cons b
      · exact (ih _ _).cons₂ b

theorem evmSelect_subperm (l : List BStrategy) : (evmSelect l).Subperm l := by
  have h1 : (selectPref PREFERRED_COUNT [] (l.filter (·.isPreferred))).Sublist
      (l.filter (·.isPreferred)) := selectPref_sublist _ _ _
  have h2 : (selectOther
        (OTHER_COUNT + (PREFERRED_COUNT -
          (selectPref PREFERRED_COUNT [] (l.filter (·.isPreferred))).length))
        [] (l.filter fun b => !b.isPreferred)).Sublist
      (l.filter fun b => !b.isPreferred) := selectOther_sublist _ _ _
  exact ((h1.append h2).subperm).trans
    (List.filter_append_perm (fun b => b.isPreferred) l).subperm

theorem stdSelect_sublist (l : List BStrategy) : (stdSelect l).Sublist l :=
  stdSelectGo_sublist _ _ _ _

theorem selectedFor_subperm (strategies : List Strategy) (chain : Option String) :
    (selectedFor strategies chain).Subperm (strategies.map toBoosted) := by
  unfold selectedFor
  split
  · exact .trans (evmSelect_subperm _) (sortByDesc_perm _ _).subperm
  · exact .trans (stdSelect_sublist _).subperm (sortByDesc_perm _ _).subperm

theorem Subperm.nodup' {l₁ l₂ : List α} (h : l₁.Subperm l₂) (hn : l₂.Nodup) : l₁.Nodup := by
  rcases h with ⟨l, hperm, hsub⟩
  exact hperm.nodup_iff.1 (hsub.nodup hn)

/-! ## Helper lemmas: the weight map (a JS `Map` keyed by strategy id) -/

/-- The id under which a weighted entry is stored in the weight map. -/
def wid (w : WEntry) : String := w.b.s.id

theorem weightMapGet_foldl (id : String) :
    ∀ (l : List WEntry) (acc : Option WEntry),
      l.foldl (fun acc w => if w.b.s.id == id then some w else acc) acc =
        match weightMapGet l id with
        | some v => some v
        | none => acc := by
  intro l
  induction l with
  | nil => intro acc; simp [weightMapGet]
  | cons w ws ih =>
    intro acc
    show ws.foldl _ (if w.b.s.id == id then some w else acc) = _
    rw [ih]
    have hcons : weightMapGet (w :: ws) id =
        match weightMapGet ws id with
        | some v => some v
        | none => if w.b.s.id == id then some w else none := by
      show ws.foldl _ (if w.b.s.id == id then some w else none) = _
      rw [ih]
    rw [hcons]
    cases weightMapGet ws id with
    | none => by_cases h : w.b.s.id == id <;> simp [h]
    | some v => rfl

theorem weightMapGet_cons (w : WEntry) (ws : List WEntry) (id : String) :
    weightMapGet (w :: ws) id =
      match weightMapGet ws id with
      | some v => some v
      | none => if w.b.s.id == id then some w else none := by
  show ws.foldl _ (if w.b.s.id == id then some w else none) = _
  rw [weightMapGet_foldl]

theorem weightMapGet_eq_none (l : List WEntry) (id : String)
    (h : id ∉ l.map wid) : weightMapGet l id = none := by
  induction l with
  | nil => rfl
  | cons w ws ih =>
    rw [weightMapGet_cons]
    have h1 : id ∉ ws.map wid := fun hm => h (by simp [hm, List.map_cons])
    have h2 : w.b.s.id ≠ id := by
      intro he
      exact h (by simp [List.map_cons, wid, he])
    rw [ih h1]
    simp [h2]

theorem weightMapGet_self (l : List WEntry) (w : WEntry)
    (hnd : (l.map wid).Nodup) (hw : w ∈ l) : weightMapGet l (wid w) = some w := by
  induction l with
  | nil => cases hw
  | cons x xs ih =>
    rw [weightMapGet_cons]
    rcases List.mem_cons.1 hw with hw | hw
    · subst hw
      have hx : wid w ∉ xs.map wid := by
        have := List.pairwise_cons.1 hnd
        intro hm
        rcases List.mem_map.1 hm with ⟨v, hv, hvid⟩
        exact this.1 (wid v) (List.mem_map_of_mem wid hv) hvid.symm
      rw [weightMapGet_eq_none xs (wid w) hx]
      simp [wid]
    · have hnd' : (xs.map wid).Nodup := (List.pairwise_cons.1 hnd).2
      rw [ih hnd' hw]

/-! ## Helper lemmas: sums -/

theorem sum_map_div {α : Type} (l : List α) (f : α → ℚ) (c : ℚ) :
    (l.map fun x => f x / c).sum = (l.map f).sum / c := by
  induction l with
  | nil => simp
  | cons x xs ih => simp [ih, add_div]

theorem sum_div_total {α : Type} (l : List α) (f : α → ℚ) :
    (l.map fun x => f x / (l.map f).sum).sum = if (l.map f).sum = 0 then 0 else 1 := by
  rw [sum_map_div]
  split
  · rename_i h; rw [h]; simp
  · rename_i h; exact div_self h

/-- The sum of `g` over a duplicate-free list of ids covering the (duplicate-free)
ids of `weighted` equals the sum of the stored weights, where `g` looks each id
up in the weight map. -/
theorem remap_sum_ids :
    ∀ (weighted : List WEntry) (ids : List String),
      ids.Nodup → (weighted.map wid).Nodup → (∀ w ∈ weighted, wid w ∈ ids) →
      (ids.map fun id =>
          match weightMapGet weighted id with
          | some w => w.weight
          | none => 0).sum
        = (weighted.map WEntry.weight).sum := by
  intro weighted
  induction weighted with
  | nil =>
    intro ids _ _ _
    simp [weightMapGet]
  | cons w ws ih =>
    intro ids hids hnd hcov
    have hwid : wid w ∈ ids := hcov w (by simp)
    have hndws : (ws.map wid).Nodup := (List.pairwise_cons.1 hnd).2
    have hwnotin : wid w ∉ ws.map wid := by
      intro hm
      rcases List.mem_map.1 hm with ⟨v, hv, hvid⟩
      exact (List.pairwise_cons.1 hnd).1 (wid v) (List.mem_map_of_mem wid hv) hvid.symm
    -- sum over ids = term at (wid w) + sum over the rest
    have hperm : ids.Perm (wid w :: ids.erase (wid w)) := List.perm_cons_erase hwid
    have hsum := (hperm.map fun id =>
      match weightMapGet (w :: ws) id with
      | some v => v.weight
      | none => 0).sum_eq
    rw [hsum]
    simp only [List.map_cons, List.sum_cons]
    have hget_w : weightMapGet (w :: ws) (wid w) = some w := by
      rw [weightMapGet_cons, weightMapGet_eq_none ws (wid w) hwnotin]
      simp [wid]
    rw [hget_w]
    have hcongr : ∀ id ∈ ids.erase (wid w),
        (match weightMapGet (w :: ws) id with
         | some v => v.weight
         | none => (0 : ℚ)) =
        (match weightMapGet ws id with
         | some v => v.weight
         | none => (0 : ℚ)) := by
      intro id hid
      have hne : id ≠ wid w := ((hids.mem_erase_iff).1 hid).1
      rw [weightMapGet_cons]
      cases hgws : weightMapGet ws id with
      | some v => rfl
      | none =>
        have : (w.b.s.id == id) = false := by
          simp only [beq_eq_false_iff_ne]
          exact fun he => hne (he ▸ rfl)
        simp [this]
    rw [List.map_congr_left hcongr]
    have herase_nd : (ids.erase (wid w)).Nodup := hids.erase (wid w)
    have hcov' : ∀ v ∈ ws, wid v ∈ ids.erase (wid w) := by
      intro v hv
      have hv_ids : wid v ∈ ids := hcov v (by simp [hv])
      have hv_ne : wid v ≠ wid w := by
        intro he
        exact hwnotin (he ▸ List.mem_map_of_mem wid hv)
      exact (hids.mem_erase_iff).2 ⟨hv_ne, hv_ids⟩
    rw [ih (ids.erase (wid w)) herase_nd hndws hcov']

theorem Subperm.map' {l₁ l₂ : List α} (f : α → β) (h : l₁.Subperm l₂) :
    (l₁.map f).Subperm (l₂.map f) := by
  rcases h with ⟨l, hperm, hsub⟩
  exact ⟨l.map f, hperm.map f, hsub.map f⟩

/-! ## Helper lemmas: the weights of the returned strategy list -/

theorem remap_map_weight (strategies : List Strategy) (weighted : List WEntry) :
    (remapStrategies strategies weighted).map Strategy.weight =
      (strategies.map Strategy.id).map fun id =>
        match weightMapGet weighted id with
        | some w => w.weight
        | none => 0 := by
  unfold remapStrategies
  rw [List.map_map, List.map_map]
  refine List.map_congr_left fun s _ => ?_
  show (match weightMapGet weighted s.id with
      | some w => { s with weight := jsOrZero w.weight, allocated := jsOrZero w.allocated }
      | none => { s with weight := 0, allocated := 0 }).weight
    = match weightMapGet weighted s.id with
      | some w => w.weight
      | none => 0
  cases weightMapGet weighted s.id with
  | some w => simp [jsOrZero_eq]
  | none => rfl

theorem stdWeights_ids (sel : List BStrategy) (tvl : ℚ) :
    (stdWeights sel tvl).map wid = sel.map fun b => b.s.id := by
  unfold stdWeights
  rw [List.map_map]
  rfl

theorem evmWeights_ids_perm (sel : List BStrategy) (tvl : ℚ) :
    ((evmWeights sel tvl).map wid).Perm (sel.map fun b => b.s.id) := by
  unfold evmWeights
  rw [List.map_append, List.map_map, List.map_map]
  have hperm := (List.filter_append_perm (fun b => b.isPreferred) sel).map fun b => b.s.id
  rw [List.map_append] at hperm
  exact hperm

theorem stdWeights_weight_sum (sel : List BStrategy) (tvl : ℚ) :
    ((stdWeights sel tvl).map WEntry.weight).sum =
      if (sel.map (·.boostedAPY)).sum = 0 then 0 else 1 := by
  unfold stdWeights
  rw [List.map_map]
  exact sum_div_total sel fun b => b.boostedAPY

theorem evmWeights_weight_sum (sel : List BStrategy) (tvl : ℚ) :
    ((evmWeights sel tvl).map WEntry.weight).sum =
      if ((sel.filter (·.isPreferred)).map (·.boostedAPY)).sum = 0 then 0 else 1 := by
  unfold evmWeights
  rw [List.map_append, List.sum_append, List.map_map, List.map_map]
  have hother : (List.map (WEntry.weight ∘ otherEntry
        ((List.map (fun b => b.boostedAPY) (sel.filter fun b => !b.isPreferred)).sum) tvl)
        (sel.filter fun b => !b.isPreferred)).sum = 0 := by
    refine List.sum_eq_zero fun x hx => ?_
    rcases List.mem_map.1 hx with ⟨b, _, hb⟩
    rw [← hb]
    show b.boostedAPY / _ * OTHER_TARGET = 0
    rw [OTHER_TARGET, mul_zero]
  rw [hother, add_zero]
  have hpref : List.map (WEntry.weight ∘ prefEntry
        ((List.map (fun b => b.boostedAPY) (sel.filter (·.isPreferred))).sum) tvl)
        (sel.filter (·.isPreferred))
      = (sel.filter (·.isPreferred)).map fun b =>
          b.boostedAPY / ((sel.filter (·.isPreferred)).map (·.boostedAPY)).sum := by
    refine List.map_congr_left fun b _ => ?_
    show b.boostedAPY / _ * PREFERRED_TARGET = _
    rw [PREFERRED_TARGET, mul_one]
  rw [hpref]
  exact sum_div_total (sel.filter (·.isPreferred)) fun b => b.boostedAPY

/-- The total 30-day-mean APY of the group whose weights are normalized to the
unit target: for EVM chains the preferred part of the selection, otherwise the
whole selection. -/
def relevantTotalAPY (strategies : List Strategy) (chain : Option String) : ℚ :=
  if isEVMChain chain then
    (((selectedFor strategies chain).filter (·.isPreferred)).map (·.boostedAPY)).sum
  else ((selectedFor strategies chain).map (·.boostedAPY)).sum

theorem weightedFor_ids_perm (strategies : List Strategy) (tvl : ℚ) (chain : Option String) :
    ((weightedFor strategies tvl chain).map wid).Perm
      ((selectedFor strategies chain).map fun b => b.s.id) := by
  unfold weightedFor
  split
  · exact evmWeights_ids_perm _ tvl
  · rw [stdWeights_ids]

theorem selected_ids_subperm (strategies : List Strategy) (chain : Option String) :
    ((selectedFor strategies chain).map fun b => b.s.id).Subperm
      (strategies.map Strategy.id) := by
  have h := Subperm.map' (fun b => b.s.id) (selectedFor_subperm strategies chain)
  rwa [List.map_map] at h

theorem weightedFor_weight_sum (strategies : List Strategy) (tvl : ℚ) (chain : Option String) :
    ((weightedFor strategies tvl chain).map WEntry.weight).sum =
      if relevantTotalAPY strategies chain = 0 then 0 else 1 := by
  unfold weightedFor relevantTotalAPY
  split
  · exact evmWeights_weight_sum _ tvl
  · exact stdWeights_weight_sum _ tvl

/-- With duplicate-free strategy ids, the sum of the weights of the full
returned list equals the sum of the weights stored in the weight map. -/
theorem sumWeights_eq_weighted_sum (strategies : List Strategy) (tvl : ℚ)
    (chain : Option String) (hids : (strategies.map Strategy.id).Nodup) :
    sumWeights (remapStrategies strategies (weightedFor strategies tvl chain)) =
      ((weightedFor strategies tvl chain).map WEntry.weight).sum := by
  unfold sumWeights
  rw [remap_map_weight]
  have hperm := weightedFor_ids_perm strategies tvl chain
  have hsubperm := (hperm.subperm).trans (selected_ids_subperm strategies chain)
  refine remap_sum_ids (weightedFor strategies tvl chain) (strategies.map Strategy.id)
    hids (Subperm.nodup' hsubperm hids) ?_
  intro w hw
  exact hsubperm.subset (List.mem_map_of_mem wid hw)

theorem sumWeights_calculateOptimalWeights (strategies : List Strategy) (tvl : ℚ)
    (chain : Option String) (hids : (strategies.map Strategy.id).Nodup) :
    sumWeights (calculateOptimalWeights strategies tvl chain) =
      if relevantTotalAPY strategies chain = 0 then 0 else 1 := by
  unfold calculateOptimalWeights
  split
  · rename_i hempty
    rw [List.isEmpty_iff] at hempty
    subst hempty
    have hsel : ∀ c, selectedFor [] c = [] := by
      intro c
      unfold selectedFor
      split
      · rfl
      · rfl
    unfold relevantTotalAPY sumWeights
    split <;> simp [hsel]
  · rw [sumWeights_eq_weighted_sum strategies tvl chain hids,
      weightedFor_weight_sum]

theorem relevantTotalAPY_nonneg (strategies : List Strategy) (chain : Option String)
    (hpos : ∀ s ∈ strategies, 0 ≤ s.apyMean30d) :
    0 ≤ relevantTotalAPY strategies chain := by
  have hsel : ∀ b ∈ selectedFor strategies chain, 0 ≤ b.boostedAPY := by
    intro b hb
    have hmem := (selectedFor_subperm strategies chain).subset hb
    rcases List.mem_map.1 hmem with ⟨s, hs, rfl⟩
    exact hpos s hs
  unfold relevantTotalAPY
  split
  · refine List.sum_nonneg fun x hx => ?_
    rcases List.mem_map.1 hx with ⟨b, hb, rfl⟩
    exact hsel b (List.mem_filter.1 hb).1
  · refine List.sum_nonneg fun x hx => ?_
    rcases List.mem_map.1 hx with ⟨b, hb, rfl⟩
    exact hsel b hb

/-! ## Test fixture -/

/-- A concrete strategy record for witnesses and counterexamples. -/
def sampleStrategy (id protocol asset chain : String) (apy : ℚ) : Strategy :=
  { id := id, chain := chain, protocol := protocol, poolId := id, asset := asset,
    apyBase := 0, apyReward := 0, apyGross := apy, apyNet := apy, apyMean30d := apy,
    tvl := 1000000, cap := 0, allocated := 0, weight := 0, lastUpdate := 0 }

/-! ## Claim C1 -/

/-- C1 (counterexample): the claim "the weight sum equals 1 (within
floating-point tolerance) whenever at least one strategy is selected" is false
on the EVM path: with a single strategy from a non-preferred protocol on
`arbitrum`, one strategy is selected, yet every returned weight is 0 (the
"other" group's target weight is 0), so the weight sum is 0, not 1. -/
theorem C1_counterexample :
    (selectedFor [sampleStrategy "p1" "acme" "USDT" "arbitrum" 10] (some "arbitrum")).length = 1 ∧
    sumWeights (calculateOptimalWeights [sampleStrategy "p1" "acme" "USDT" "arbitrum" 10] 100
      (some "arbitrum")) = 0 := by
  constructor
  · rfl
  · norm_num [sumWeights, calculateOptimalWeights, remapStrategies, weightedFor, selectedFor,
      isEVMChain, boostAndSort, toBoosted, sortByDesc, insertByDesc, evmSelect, selectPref,
      selectOther, evmWeights, prefEntry, otherEntry, weightMapGet, jsKey, baseAssetOf,
      sampleStrategy, jsOrZero, PREFERRED_PROTOCOLS, jsIncludes, jsToLower, containsChars,
      startsWith, PREFERRED_COUNT, OTHER_COUNT, PREFERRED_TARGET, OTHER_TARGET, splitOnDash]

/-- C1 (amended): for every input strategy list with pairwise-distinct ids and
nonnegative 30-day mean APYs (as the pipeline's 5%-floor filter guarantees),
for every chain and vault value, the sum of the weights over the full returned
list of `calculateOptimalWeights` equals 1 when the unit-target group of the
selection (for EVM chains the selected preferred group, otherwise the whole
selection) has positive total 30-day mean APY, and equals 0 otherwise; in
particular the sum is always at most 1, and is 0 when no strategy is
selected. -/
theorem C1_weight_sum (strategies : List Strategy) (totalTVL : ℚ) (chain : Option String)
    (hids : (strategies.map Strategy.id).Nodup)
    (hpos : ∀ s ∈ strategies, 0 ≤ s.apyMean30d) :
    sumWeights (calculateOptimalWeights strategies totalTVL chain) =
      (if 0 < relevantTotalAPY strategies chain then 1 else 0) ∧
    sumWeights (calculateOptimalWeights strategies totalTVL chain) ≤ 1 ∧
    (selectedFor strategies chain = [] →
      sumWeights (calculateOptimalWeights strategies totalTVL chain) = 0) := by
  have hmain := sumWeights_calculateOptimalWeights strategies totalTVL chain hids
  have hnn := relevantTotalAPY_nonneg strategies chain hpos
  have hiff : relevantTotalAPY strategies chain = 0 ↔
      ¬ 0 < relevantTotalAPY strategies chain := by
    constructor
    · intro h0
      rw [h0]
      exact lt_irrefl 0
    · intro hnlt
      exact le_antisymm (not_lt.1 hnlt) hnn
  have hfirst : sumWeights (calculateOptimalWeights strategies totalTVL chain) =
      if 0 < relevantTotalAPY strategies chain then 1 else 0 := by
    rw [hmain]
    by_cases h : relevantTotalAPY strategies chain = 0
    · rw [if_pos h, if_neg (hiff.1 h)]
    · rw [if_neg h, if_pos (lt_of_le_of_ne hnn (fun he => h he.symm))]
  refine ⟨hfirst, ?_, ?_⟩
  · rw [hfirst]
    split
    · exact le_refl 1
    · exact zero_le_one
  · intro hempty
    rw [hfirst]
    have hT : relevantTotalAPY strategies chain = 0 := by
      unfold relevantTotalAPY
      split <;> rw [hempty] <;> rfl
    rw [if_neg (hiff.1 hT)]

/-- C1 (witness): the amended theorem applied at a concrete two-strategy
non-EVM input. -/
theorem C1_weight_sum_witness :
    (([sampleStrategy "a" "x" "USDT" "solana" 30,
       sampleStrategy "b" "y" "USDT" "solana" 10].map Strategy.id).Nodup) ∧
    (∀ s ∈ [sampleStrategy "a" "x" "USDT" "solana" 30,
            sampleStrategy "b" "y" "USDT" "solana" 10], 0 ≤ s.apyMean30d) ∧
    (sumWeights (calculateOptimalWeights
        [sampleStrategy "a" "x" "USDT" "solana" 30,
         sampleStrategy "b" "y" "USDT" "solana" 10] 100 (some "solana")) =
      (if 0 < relevantTotalAPY
          [sampleStrategy "a" "x" "USDT" "solana" 30,
           sampleStrategy "b" "y" "USDT" "solana" 10] (some "solana") then 1 else 0) ∧
    sumWeights (calculateOptimalWeights
        [sampleStrategy "a" "x" "USDT" "solana" 30,
         sampleStrategy "b" "y" "USDT" "solana" 10] 100 (some "solana")) ≤ 1 ∧
    (selectedFor [sampleStrategy "a" "x" "USDT" "solana" 30,
         sampleStrategy "b" "y" "USDT" "solana" 10] (some "solana") = [] →
      sumWeights (calculateOptimalWeights
        [sampleStrategy "a" "x" "USDT" "solana" 30,
         sampleStrategy "b" "y" "USDT" "solana" 10] 100 (some "solana")) = 0)) :=
  ⟨by decide, by decide, C1_weight_sum _ 100 (some "solana") (by decide) (by decide)⟩

/-! ## Claim C2 -/

/-- The decomposition of a pool symbol the filter validates: uppercase and
trim the symbol; for an LP pair (a symbol containing `-`) the `-`-separated
trimmed pieces, otherwise the whole symbol. -/
def tokensOfSymbol (symbol : String) : List String :=
  let upperSymbol := jsTrim (jsToUpper symbol)
  if jsIncludes upperSymbol "-" then symbolTokens upperSymbol else [upperSymbol]

theorem isStablePair_eq (symbol : String) :
    isStablePair symbol =
      ((tokensOfSymbol symbol).all isExactStablecoin &&
        !(excludeTokens.any fun ex => jsIncludes (jsTrim (jsToUpper symbol)) ex)) := by
  unfold isStablePair tokensOfSymbol
  by_cases hex : (excludeTokens.any fun ex =>
      jsIncludes (jsTrim (jsToUpper symbol)) ex) = true
  · simp [hex]
  · rw [Bool.not_eq_true] at hex
    rw [if_neg (by rw [hex]; exact Bool.false_ne_true)]
    rw [hex]
    simp only [Bool.not_false, Bool.and_true]
    by_cases hdash : jsIncludes (jsTrim (jsToUpper symbol)) "-" = true
    · rw [if_pos hdash, if_pos hdash]
    · rw [Bool.not_eq_true] at hdash
      rw [if_neg (by rw [hdash]; exact Bool.false_ne_true),
        if_neg (by rw [hdash]; exact Bool.false_ne_true)]
      simp

/-- C2: a raw pool is kept by `getPoolsForChain` (for a chain key whose
configuration exists) if and only if it is in the input list and satisfies all
six conditions: case-insensitive chain containment, at least one configured
asset ticker contained in the symbol, the stablecoin flag, the stable-pair
whitelist/exclusion symbol validation, strictly positive apy, and at least
$200,000 of TVL. -/
theorem C2_pool_filter (chain : String) (config : ChainConfig)
    (hconfig : CHAIN_CONFIGS.find? (fun c => c.chain == chain) = some config)
    (allPools : List DefiLlamaPool) (pool : DefiLlamaPool) :
    pool ∈ getPoolsForChain chain allPools ↔
      pool ∈ allPools ∧
      jsIncludes (jsToLower pool.chain) (jsToLower config.chainFilter) = true ∧
      (∃ asset ∈ config.assets, jsIncludes (jsToUpper pool.symbol) (jsToUpper asset) = true) ∧
      pool.stablecoin = true ∧
      ((tokensOfSymbol pool.symbol).all isExactStablecoin = true ∧
        ∀ ex ∈ excludeTokens, jsIncludes (jsTrim (jsToUpper pool.symbol)) ex = false) ∧
      0 < pool.apy ∧
      (200000 : ℚ) ≤ pool.tvlUsd := by
  unfold getPoolsForChain
  rw [hconfig, List.mem_filter]
  unfold poolKeep
  rw [isStablePair_eq]
  simp only [Bool.and_eq_true, decide_eq_true_eq, beq_iff_eq, List.any_eq_true,
    Bool.not_eq_true', List.any_eq_false, List.all_eq_true, Bool.not_eq_true]
  constructor
  · rintro ⟨hmem, ⟨⟨⟨⟨⟨h1, h2⟩, h3⟩, ⟨h4, h5⟩⟩, h6⟩, h7⟩⟩
    exact ⟨hmem, h1, h2, h3, ⟨h4, h5⟩, h6, h7⟩
  · rintro ⟨hmem, h1, h2, h3, ⟨h4, h5⟩, h6, h7⟩
    exact ⟨hmem, ⟨⟨⟨⟨⟨h1, h2⟩, h3⟩, ⟨h4, h5⟩⟩, h6⟩, h7⟩⟩

/-- A concrete upstream pool record for witnesses. -/
def samplePool : DefiLlamaPool :=
  { chain := "Arbitrum", project := "aave-v3", symbol := "USDT", tvlUsd := 1000000,
    apyBase := some 4, apyReward := some 1, apy := 5, apyMean30d := some 6,
    stablecoin := true, pool := "pool-1" }

/-- C2 (witness): the filter characterization applied at the `arbitrum`
configuration and a concrete pool. -/
theorem C2_pool_filter_witness :
    (CHAIN_CONFIGS.find? (fun c => c.chain == "arbitrum") =
      some { chain := "arbitrum", assets := ["USDT0", "USDT", "USDC", "DAI"],
             chainFilter := "Arbitrum" }) ∧
    (samplePool ∈ getPoolsForChain "arbitrum" [samplePool] ↔
      samplePool ∈ [samplePool] ∧
      jsIncludes (jsToLower samplePool.chain) (jsToLower "Arbitrum") = true ∧
      (∃ asset ∈ ["USDT0", "USDT", "USDC", "DAI"],
        jsIncludes (jsToUpper samplePool.symbol) (jsToUpper asset) = true) ∧
      samplePool.stablecoin = true ∧
      ((tokensOfSymbol samplePool.symbol).all isExactStablecoin = true ∧
        ∀ ex ∈ excludeTokens, jsIncludes (jsTrim (jsToUpper samplePool.symbol)) ex = false) ∧
      0 < samplePool.apy ∧
      (200000 : ℚ) ≤ samplePool.tvlUsd) :=
  ⟨by decide, C2_pool_filter "arbitrum"
    { chain := "arbitrum", assets := ["USDT0", "USDT", "USDC", "DAI"],
      chainFilter := "Arbitrum" } (by decide) [samplePool] samplePool⟩

/-! ## Claim C3 -/

/-- The base asset exactly as the claim words it: the symbol with the text
after `-` dropped and a suffix decoration `.E`, `ET`, or a trailing `0`
stripped (note: `ET` without a preceding dot). -/
def claimBaseAsset (asset : String) : String :=
  let first := (splitOnDash asset.data).headD []
  let noSuf :=
    if (['.', 'E'] : List Char).isSuffixOf first then first.take (first.length - 2)
    else if (['E', 'T'] : List Char).isSuffixOf first then first.take (first.length - 2)
    else first
  let noZero :=
    if (['0'] : List Char).isSuffixOf noSuf then noSuf.take (noSuf.length - 1)
    else noSuf
  String.mk noZero

/-- C3 (counterexample): with base asset as the claim defines it (stripping a
bare `ET` suffix), the dedup claim is false: `aave-v3` strategies `USDC.E` and
`USDCET` on `ethereum` have distinct code keys (the code only strips `.E`/`.ET`,
with the dot), so both are selected, yet they share the claim's
(protocol, base-asset, chain) triple `(aave-v3, USDC, ethereum)`. -/
theorem C3_counterexample :
    ((selectedFor [sampleStrategy "a" "aave-v3" "USDC.E" "ethereum" 10,
                   sampleStrategy "b" "aave-v3" "USDCET" "ethereum" 9]
        (some "ethereum")).filter (·.isPreferred)).map
      (fun b => (b.s.protocol, claimBaseAsset b.s.asset, b.s.chain)) =
    [("aave-v3", "USDC", "ethereum"), ("aave-v3", "USDC", "ethereum")] := by
  decide

theorem selectPref_keys :
    ∀ (l : List BStrategy) (n : Nat) (used : List String),
      (selectPref n used l).Pairwise (fun a b => jsKey a ≠ jsKey b) ∧
      ∀ b ∈ selectPref n used l, jsKey b ∉ used := by
  intro l
  induction l with
  | nil =>
    intro n used
    cases n <;> simp [selectPref]
  | cons b rest ih =>
    intro n used
    cases n with
    | zero => simp [selectPref]
    | succ n =>
      unfold selectPref
      by_cases h : used.contains (jsKey b)
      · rw [if_pos h]
        exact ih (n + 1) used
      · rw [if_neg h]
        rcases ih n (jsKey b :: used) with ⟨hpw, hused⟩
        refine ⟨List.pairwise_cons.2 ⟨?_, hpw⟩, ?_⟩
        · intro x hx heq
          exact hused x hx (heq ▸ List.mem_cons_self _ _)
        · intro x hx
          rcases List.mem_cons.1 hx with hx | hx
          · subst hx
            intro hmem
            exact h (List.elem_iff.2 hmem)
          · intro hmem
            exact hused x hx (List.mem_cons_of_mem _ hmem)

theorem selectPref_all_mem :
    ∀ (l : List BStrategy) (n : Nat) (used : List String) (b : BStrategy),
      b ∈ selectPref n used l → b ∈ l :=
  fun l n used b hb => (selectPref_sublist n used l).subset hb

/-- C3 (amended): in the Policy A (EVM) selection, no two selected preferred
strategies share the same (protocol, base-asset, chain) triple, where the base
asset is the symbol with the pair decoration (text after `-`) and the suffix
decoration `.E`/`.ET` (and then one trailing `0`) stripped — the code requires
the dot before `ET`; this holds for every input strategy list. -/
theorem C3_dedup (strategies : List Strategy) (chain : Option String)
    (hEVM : isEVMChain chain = true) :
    ((selectedFor strategies chain).filter (·.isPreferred)).Pairwise
      (fun a b => (a.s.protocol, baseAssetOf a.s.asset, a.s.chain) ≠
        (b.s.protocol, baseAssetOf b.s.asset, b.s.chain)) := by
  unfold selectedFor
  rw [if_pos hEVM]
  unfold evmSelect
  rw [List.filter_append]
  have hother : ((selectOther
      (OTHER_COUNT + (PREFERRED_COUNT - (selectPref PREFERRED_COUNT []
        ((boostAndSort strategies).filter (·.isPreferred))).length))
      [] ((boostAndSort strategies).filter fun b => !b.isPreferred)).filter
        (·.isPreferred)) = [] := by
    rw [List.filter_eq_nil_iff]
    intro b hb
    have := (selectOther_sublist _ _ _).subset hb
    have hmem := List.mem_filter.1 this
    simp at hmem
    simp [hmem.2]
  rw [hother, List.append_nil]
  have hpref : ((selectPref PREFERRED_COUNT []
      ((boostAndSort strategies).filter (·.isPreferred))).filter (·.isPreferred)) =
      selectPref PREFERRED_COUNT [] ((boostAndSort strategies).filter (·.isPreferred)) := by
    rw [List.filter_eq_self]
    intro b hb
    have := selectPref_all_mem _ _ _ b hb
    exact (List.mem_filter.1 this).2
  rw [hpref]
  have hkeys := (selectPref_keys ((boostAndSort strategies).filter (·.isPreferred))
    PREFERRED_COUNT []).1
  refine hkeys.imp ?_
  intro a b hab htriple
  apply hab
  have h1 : a.s.protocol = b.s.protocol := congrArg Prod.fst htriple
  have h2 : baseAssetOf a.s.asset = baseAssetOf b.s.asset :=
    congrArg (fun t : String × String × String => t.2.1) htriple
  have h3 : a.s.chain = b.s.chain :=
    congrArg (fun t : String × String × String => t.2.2) htriple
  unfold jsKey
  rw [h1, h2, h3]

/-- C3 (witness): the dedup theorem applied at the counterexample input — under
the code's base-asset (dot required before `ET`) the two triples differ. -/
theorem C3_dedup_witness :
    (isEVMChain (some "ethereum") = true) ∧
    ((selectedFor [sampleStrategy "a" "aave-v3" "USDC.E" "ethereum" 10,
                   sampleStrategy "b" "aave-v3" "USDCET" "ethereum" 9]
        (some "ethereum")).filter (·.isPreferred)).Pairwise
      (fun a b => (a.s.protocol, baseAssetOf a.s.asset, a.s.chain) ≠
        (b.s.protocol, baseAssetOf b.s.asset, b.s.chain)) :=
  ⟨by decide, C3_dedup _ (some "ethereum") (by decide)⟩

/-! ## Claim C4 -/

/-- C4: `fetchPools` (a total function — it never throws) returns, on upstream
failure, the last successfully cached pool list (the empty list when no fetch
has ever succeeded) and leaves the cache unchanged; and any call within the
5-minute freshness window of a successful fetch returns the cached list
without a network call and without touching the cache. -/
theorem C4_fetchPools (cache : Option PoolCacheEntry) (now : ℚ) (upstream : FetchOutcome) :
    (upstream = FetchOutcome.failure →
      (fetchPools cache now upstream).pools =
        (match cache with | some c => c.data | none => []) ∧
      (fetchPools cache now upstream).cache = cache) ∧
    (∀ c, cache = some c → now - c.timestamp < CACHE_TTL →
      fetchPools cache now upstream =
        { pools := c.data, cache := some c, networkCall := false }) := by
  constructor
  · rintro rfl
    cases cache with
    | none => exact ⟨rfl, rfl⟩
    | some c =>
      by_cases h : now - c.timestamp < CACHE_TTL
      · simp only [fetchPools, if_pos h]
        constructor <;> trivial
      · simp only [fetchPools, if_neg h]
        constructor <;> trivial
  · rintro c rfl hfresh
    simp only [fetchPools, if_pos hfresh]

/-- C4 (witness): a stale-cache upstream failure and a fresh-cache hit at
concrete times. -/
theorem C4_fetchPools_witness :
    ((FetchOutcome.failure = FetchOutcome.failure →
      (fetchPools (some { data := [samplePool], timestamp := 0 }) 400000
          FetchOutcome.failure).pools = [samplePool] ∧
      (fetchPools (some { data := [samplePool], timestamp := 0 }) 400000
          FetchOutcome.failure).cache = some { data := [samplePool], timestamp := 0 }) ∧
    (∀ c, some { data := [samplePool], timestamp := 0 } = some c →
      (400000 : ℚ) - c.timestamp < CACHE_TTL →
      fetchPools (some { data := [samplePool], timestamp := 0 }) 400000
          FetchOutcome.failure =
        { pools := c.data, cache := some c, networkCall := false })) ∧
    (fetchPools (some { data := [samplePool], timestamp := 200000 }) 400000
        FetchOutcome.failure =
      { pools := [samplePool], cache := some { data := [samplePool], timestamp := 200000 },
        networkCall := false }) :=
  ⟨C4_fetchPools (some { data := [samplePool], timestamp := 0 }) 400000 FetchOutcome.failure,
   (C4_fetchPools (some { data := [samplePool], timestamp := 200000 }) 400000
      FetchOutcome.failure).2 { data := [samplePool], timestamp := 200000 } rfl
      (by norm_num [CACHE_TTL])⟩

/-! ## Claim C6 -/

/-- C6 (counterexample): the part of the claim "never returns NaN or Infinity"
is false: with a stored snapshot whose last price-per-share is 0 (reachable,
since `updateVaultState` stores any passed price), a later call divides the
price change by 0 and the JavaScript original returns `Infinity` (modelled by
`none`). -/
theorem C6_counterexample :
    calculateRealAPY
      (some { totalAssets := 0, totalShares := 0,
              lastPricePerShare := 0, lastUpdateTime := 0 }) 1000 1 = none := by
  norm_num [calculateRealAPY]

/-- C6 (amended): `calculateRealAPY` (a total function — it never throws)
returns 0 when no prior snapshot exists, returns 0 when the elapsed time since
the last snapshot is 0, and returns a finite value (never NaN or Infinity)
whenever the stored last price-per-share is nonzero; with a stored zero last
price-per-share and nonzero elapsed time the JavaScript original returns a
non-finite number. -/
theorem C6_realAPY (now currentPricePerShare : ℚ) :
    (calculateRealAPY none now currentPricePerShare = some 0) ∧
    (∀ st : VaultState, now = st.lastUpdateTime →
      calculateRealAPY (some st) now currentPricePerShare = some 0) ∧
    (∀ st : VaultState, st.lastPricePerShare ≠ 0 →
      (calculateRealAPY (some st) now currentPricePerShare).isSome = true) := by
  refine ⟨rfl, ?_, ?_⟩
  · intro st h
    show (if (now - st.lastUpdateTime) / 1000 = 0 then some 0
      else if st.lastPricePerShare = 0 then none
      else some ((currentPricePerShare - st.lastPricePerShare) / st.lastPricePerShare /
        ((now - st.lastUpdateTime) / 1000) * (365 * 24 * 60 * 60) * 100)) = some 0
    rw [if_pos (by rw [h, sub_self, zero_div])]
  · intro st h
    show (if (now - st.lastUpdateTime) / 1000 = 0 then some 0
      else if st.lastPricePerShare = 0 then none
      else some ((currentPricePerShare - st.lastPricePerShare) / st.lastPricePerShare /
        ((now - st.lastUpdateTime) / 1000) * (365 * 24 * 60 * 60) * 100)).isSome = true
    by_cases ht : (now - st.lastUpdateTime) / 1000 = 0
    · rw [if_pos ht]
      rfl
    · rw [if_neg ht, if_neg h]
      rfl

/-- C6 (witness): the amended theorem applied at a concrete snapshot. -/
theorem C6_realAPY_witness :
    ((1000 : ℚ) = (1000 : ℚ) →
      calculateRealAPY
        (some { totalAssets := 0, totalShares := 0, lastPricePerShare := 1, lastUpdateTime := 1000 })
        1000 2 = some 0) ∧
    ((1 : ℚ) ≠ 0 →
      (calculateRealAPY
        (some { totalAssets := 0, totalShares := 0, lastPricePerShare := 1, lastUpdateTime := 0 })
        1000 2).isSome = true) :=
  ⟨fun h => (C6_realAPY 1000 2).2.1
      { totalAssets := 0, totalShares := 0, lastPricePerShare := 1, lastUpdateTime := 1000 }
      h,
   fun h => (C6_realAPY 1000 2).2.2
      { totalAssets := 0, totalShares := 0, lastPricePerShare := 1, lastUpdateTime := 0 } h⟩

/-! ## Claim C10 -/

/-- C10: `triggerRebalanceIfNeeded` returns `false` whenever no `VaultYield`
is cached for the vault id (for any threshold); when a cached entry exists it
returns `true` if and only if `|apyModel − apyReal|` of that entry exceeds the
threshold; and in every case the engine state is unchanged. -/
theorem C10_trigger (st : EngineState) (vaultId : String) (threshold : ℚ) :
    (triggerRebalanceIfNeeded st vaultId threshold).2 = st ∧
    (st.currentAPYs.lookup vaultId = none →
      (triggerRebalanceIfNeeded st vaultId threshold).1 = false) ∧
    (∀ vy, st.currentAPYs.lookup vaultId = some vy →
      ((triggerRebalanceIfNeeded st vaultId threshold).1 = true ↔
        threshold < |vy.apyModel - vy.apyReal|)) := by
  unfold triggerRebalanceIfNeeded
  cases h : st.currentAPYs.lookup vaultId with
  | none =>
    refine ⟨rfl, fun _ => rfl, ?_⟩
    intro vy hvy
    cases hvy
  | some vaultAPY =>
    refine ⟨rfl, fun hn => ?_, ?_⟩
    · cases hn
    · intro vy hvy
      cases hvy
      simp only [decide_eq_true_eq]

/-- A concrete cached vault yield for witnesses. -/
def sampleVaultYield : VaultYield :=
  { vault := "solana-usdc", chain := "solana", asset := "USDC", apyModel := 5,
    apyReal := 3, totalAllocated := 0, totalTVL := 0, strategies := [], lastUpdate := 0 }

/-- C10 (witness): the trigger decision at a concrete engine state. -/
theorem C10_trigger_witness :
    (triggerRebalanceIfNeeded
        { vaultStates := [], currentAPYs := [("solana-usdc", sampleVaultYield)] }
        "solana-usdc" 1).2 =
      { vaultStates := [], currentAPYs := [("solana-usdc", sampleVaultYield)] } ∧
    (({ vaultStates := [], currentAPYs := [("solana-usdc", sampleVaultYield)] } :
        EngineState).currentAPYs.lookup "solana-usdc" = some sampleVaultYield) ∧
    ((triggerRebalanceIfNeeded
        { vaultStates := [], currentAPYs := [("solana-usdc", sampleVaultYield)] }
        "solana-usdc" 1).1 = true ↔
      (1 : ℚ) < |sampleVaultYield.apyModel - sampleVaultYield.apyReal|) :=
  ⟨(C10_trigger { vaultStates := [], currentAPYs := [("solana-usdc", sampleVaultYield)] }
      "solana-usdc" 1).1,
   by decide,
   (C10_trigger { vaultStates := [], currentAPYs := [("solana-usdc", sampleVaultYield)] }
      "solana-usdc" 1).2.2 sampleVaultYield (by decide)⟩

/-! ## Claim C7 -/

theorem sum_nonneg_zero (l : List ℚ) (h : ∀ x ∈ l, 0 ≤ x) (hsum : l.sum = 0) :
    ∀ x ∈ l, x = 0 := by
  induction l with
  | nil => intro x hx; cases hx
  | cons y ys ih =>
    rw [List.sum_cons] at hsum
    have hy : 0 ≤ y := h y (by simp)
    have hys : 0 ≤ ys.sum := List.sum_nonneg fun x hx => h x (by simp [hx])
    have hy0 : y = 0 := le_antisymm (by linarith) hy
    have hys0 : ys.sum = 0 := by linarith
    intro x hx
    rcases List.mem_cons.1 hx with hx | hx
    · exact hx.trans hy0
    · exact ih (fun z hz => h z (by simp [hz])) hys0 x hx

/-- C7: every zero-denominator case in the weight computation resolves to
weight 0 (for nonnegative APYs, the only way a group total can be 0): if the
selected preferred group's total 30-day mean APY is 0, every preferred entry's
weight is 0; entries of the non-preferred group always get weight 0 (their
group target is 0), which covers a zero total there; if the whole selection's
total is 0 on the non-EVM path, every weight is 0; and an empty preferred
group contributes total weight 0.  Nothing raises: the embedded computation is
total. -/
theorem C7_zero_guard (selected : List BStrategy) (tvl : ℚ)
    (hpos : ∀ b ∈ selected, 0 ≤ b.boostedAPY) :
    ((((selected.filter (·.isPreferred)).map (·.boostedAPY)).sum = 0 →
      ∀ w ∈ evmWeights selected tvl, w.b.isPreferred = true → w.weight = 0)) ∧
    (∀ w ∈ evmWeights selected tvl, w.b.isPreferred = false → w.weight = 0) ∧
    ((selected.map (·.boostedAPY)).sum = 0 →
      ∀ w ∈ stdWeights selected tvl, w.weight = 0) ∧
    (selected.filter (·.isPreferred) = [] →
      ((evmWeights selected tvl).map WEntry.weight).sum = 0) := by
  have hmem_evm : ∀ w ∈ evmWeights selected tvl,
      (∃ b ∈ selected.filter (·.isPreferred),
        w = prefEntry (((selected.filter (·.isPreferred)).map (·.boostedAPY)).sum) tvl b) ∨
      (∃ b ∈ selected.filter (fun x => !x.isPreferred),
        w = otherEntry (((selected.filter (fun x => !x.isPreferred)).map (·.boostedAPY)).sum)
          tvl b) := by
    intro w hw
    unfold evmWeights at hw
    rcases List.mem_append.1 hw with hw | hw
    · rcases List.mem_map.1 hw with ⟨b, hb, rfl⟩
      exact Or.inl ⟨b, hb, rfl⟩
    · rcases List.mem_map.1 hw with ⟨b, hb, rfl⟩
      exact Or.inr ⟨b, hb, rfl⟩
  refine ⟨?_, ?_, ?_, ?_⟩
  · intro hzero w hw hwpref
    rcases hmem_evm w hw with ⟨b, hb, rfl⟩ | ⟨b, hb, rfl⟩
    · have hb0 : b.boostedAPY = 0 := by
        refine sum_nonneg_zero _ ?_ hzero b.boostedAPY (List.mem_map_of_mem _ hb)
        intro x hx
        rcases List.mem_map.1 hx with ⟨c, hc, rfl⟩
        exact hpos c (List.mem_filter.1 hc).1
      show b.boostedAPY / _ * PREFERRED_TARGET = 0
      rw [hb0, zero_div, zero_mul]
    · have : (!b.isPreferred) = true := (List.mem_filter.1 hb).2
      rw [Bool.not_eq_true'] at this
      rw [show (otherEntry _ tvl b).b = b from rfl] at hwpref
      rw [this] at hwpref
      cases hwpref
  · intro w hw hwother
    rcases hmem_evm w hw with ⟨b, hb, rfl⟩ | ⟨b, hb, rfl⟩
    · have : b.isPreferred = true := (List.mem_filter.1 hb).2
      rw [show (prefEntry _ tvl b).b = b from rfl] at hwother
      rw [this] at hwother
      cases hwother
    · show b.boostedAPY / _ * OTHER_TARGET = 0
      rw [OTHER_TARGET, mul_zero]
  · intro hzero w hw
    unfold stdWeights at hw
    rcases List.mem_map.1 hw with ⟨b, hb, rfl⟩
    have hb0 : b.boostedAPY = 0 := by
      refine sum_nonneg_zero _ ?_ hzero b.boostedAPY (List.mem_map_of_mem _ hb)
      intro x hx
      rcases List.mem_map.1 hx with ⟨c, hc, rfl⟩
      exact hpos c hc
    show b.boostedAPY / _ = 0
    rw [hb0, zero_div]
  · intro hempty
    unfold evmWeights
    rw [hempty]
    simp only [List.map_nil, List.nil_append]
    refine List.sum_eq_zero fun x hx => ?_
    rcases List.mem_map.1 hx with ⟨w, hw, rfl⟩
    rcases List.mem_map.1 hw with ⟨b, hb, rfl⟩
    show b.boostedAPY / _ * OTHER_TARGET = 0
    rw [OTHER_TARGET, mul_zero]

/-- C7 (witness): the guard theorem applied at a one-element selection with a
zero 30-day mean APY from a preferred protocol. -/
theorem C7_zero_guard_witness :
    (∀ b ∈ [toBoosted (sampleStrategy "z" "curve" "USDT" "ethereum" 0)],
      0 ≤ b.boostedAPY) ∧
    ((([toBoosted (sampleStrategy "z" "curve" "USDT" "ethereum" 0)].filter
        (·.isPreferred)).map (·.boostedAPY)).sum = 0 →
      ∀ w ∈ evmWeights [toBoosted (sampleStrategy "z" "curve" "USDT" "ethereum" 0)] 100,
        w.b.isPreferred = true → w.weight = 0) ∧
    (([toBoosted (sampleStrategy "z" "curve" "USDT" "ethereum" 0)].map (·.boostedAPY)).sum = 0 →
      ∀ w ∈ stdWeights [toBoosted (sampleStrategy "z" "curve" "USDT" "ethereum" 0)] 100,
        w.weight = 0) :=
  ⟨by decide,
   (C7_zero_guard [toBoosted (sampleStrategy "z" "curve" "USDT" "ethereum" 0)] 100
     (by decide)).1,
   (C7_zero_guard [toBoosted (sampleStrategy "z" "curve" "USDT" "ethereum" 0)] 100
     (by decide)).2.2.1⟩

/-! ## Claim C9 -/

/-- The weight stored at position `i` of a weighted list (0 when out of range). -/
def weightAt (l : List WEntry) (i : Nat) : ℚ := (l[i]?.map WEntry.weight).getD 0

theorem div_add_monotone {x x' R : ℚ} (hx : 0 ≤ x) (hR : 0 ≤ R) (hxx : x ≤ x') :
    x / (x + R) ≤ x' / (x' + R) := by
  rcases lt_or_eq_of_le (add_nonneg hx hR) with hpos | hzero
  · have hx' : 0 ≤ x' := le_trans hx hxx
    have hpos' : 0 < x' + R := lt_of_lt_of_le hpos (add_le_add_right hxx R)
    rw [div_le_div_iff hpos hpos']
    nlinarith [mul_le_mul_of_nonneg_right hxx hR]
  · have hR0 : R = 0 := by linarith
    have hx0 : x = 0 := by linarith
    have hx' : 0 ≤ x' := le_trans hx hxx
    rw [hx0, hR0, add_zero, add_zero, zero_div]
    exact div_nonneg hx' hx'

theorem weightAt_stdWeights (pre post : List BStrategy) (b : BStrategy) (tvl : ℚ) :
    weightAt (stdWeights (pre ++ b :: post) tvl) pre.length =
      b.boostedAPY / ((pre.map (·.boostedAPY)).sum +
        (b.boostedAPY + (post.map (·.boostedAPY)).sum)) := by
  unfold stdWeights weightAt
  rw [List.getElem?_map, List.getElem?_append_right (le_refl pre.length), Nat.sub_self,
    List.getElem?_cons_zero]
  simp only [Option.map_some', Option.getD_some]
  show b.boostedAPY / (List.map (fun x => x.boostedAPY) (pre ++ b :: post)).sum = _
  rw [List.map_append, List.sum_append, List.map_cons, List.sum_cons]

theorem weightAt_evmWeights_mixed (pre post : List BStrategy) (b : BStrategy) (tvl : ℚ)
    (hbpref : b.isPreferred = true) :
    weightAt (evmWeights (pre ++ b :: post) tvl) ((pre.filter (·.isPreferred)).length) =
      b.boostedAPY / (((pre.filter (·.isPreferred)).map (·.boostedAPY)).sum +
        (b.boostedAPY + ((post.filter (·.isPreferred)).map (·.boostedAPY)).sum)) := by
  have hfp : (pre ++ b :: post).filter (·.isPreferred) =
      pre.filter (·.isPreferred) ++ b :: post.filter (·.isPreferred) := by
    rw [List.filter_append, List.filter_cons_of_pos hbpref]
  have hrw : evmWeights (pre ++ b :: post) tvl =
      (pre.filter (·.isPreferred) ++ b :: post.filter (·.isPreferred)).map
        (prefEntry (((pre.filter (·.isPreferred) ++
          b :: post.filter (·.isPreferred)).map (·.boostedAPY)).sum) tvl) ++
      ((pre ++ b :: post).filter (fun x => !x.isPreferred)).map
        (otherEntry ((((pre ++ b :: post).filter (fun x => !x.isPreferred)).map
          (·.boostedAPY)).sum) tvl) := by
    unfold evmWeights
    rw [hfp]
  rw [hrw]
  unfold weightAt
  rw [List.map_append, List.append_assoc,
    List.getElem?_append_right (le_of_eq (List.length_map _ _))]
  simp only [List.length_map, Nat.sub_self]
  rw [List.map_cons, List.cons_append, List.getElem?_cons_zero]
  simp only [Option.map_some', Option.getD_some]
  show b.boostedAPY / ((List.map (fun x => x.boostedAPY) (pre.filter (·.isPreferred) ++
      b :: post.filter (·.isPreferred))).sum) * PREFERRED_TARGET = _
  rw [PREFERRED_TARGET, mul_one, List.map_append, List.sum_append, List.map_cons,
    List.sum_cons]

/-- C9: holding the selected list and every other selected strategy's 30-day
mean APY fixed (nonnegative throughout), replacing one selected strategy by one
with a greater-or-equal 30-day mean APY never decreases that strategy's
computed weight: in the Policy B proportional computation (`stdWeights`), and
in the Policy A group-proportional computation (`evmWeights`) for a preferred
strategy inside an arbitrary mixed preferred/non-preferred selection; a
non-preferred strategy's weight is constantly 0 in every selection, so it can
never decrease either. -/
theorem C9_monotone (pre post : List BStrategy) (b b' : BStrategy) (tvl : ℚ)
    (hpre : ∀ x ∈ pre, 0 ≤ x.boostedAPY) (hpost : ∀ x ∈ post, 0 ≤ x.boostedAPY)
    (hb : 0 ≤ b.boostedAPY) (hbb : b.boostedAPY ≤ b'.boostedAPY) :
    weightAt (stdWeights (pre ++ b :: post) tvl) pre.length ≤
      weightAt (stdWeights (pre ++ b' :: post) tvl) pre.length ∧
    (b.isPreferred = true → b'.isPreferred = true →
      weightAt (evmWeights (pre ++ b :: post) tvl) ((pre.filter (·.isPreferred)).length) ≤
        weightAt (evmWeights (pre ++ b' :: post) tvl)
          ((pre.filter (·.isPreferred)).length)) ∧
    (∀ selected : List BStrategy, ∀ w ∈ evmWeights selected tvl,
      w.b.isPreferred = false → w.weight = 0) := by
  have hcore : ∀ P Q : ℚ, 0 ≤ P → 0 ≤ Q →
      b.boostedAPY / (P + (b.boostedAPY + Q)) ≤
        b'.boostedAPY / (P + (b'.boostedAPY + Q)) := by
    intro P Q hP hQ
    have he : ∀ y : ℚ, P + (y + Q) = y + (P + Q) := by
      intro y
      ring
    rw [he b.boostedAPY, he b'.boostedAPY]
    exact div_add_monotone hb (by linarith) hbb
  have hsum_nonneg : ∀ l : List BStrategy, (∀ x ∈ l, 0 ≤ x.boostedAPY) →
      0 ≤ (l.map (·.boostedAPY)).sum := by
    intro l hl
    refine List.sum_nonneg fun x hx => ?_
    rcases List.mem_map.1 hx with ⟨c, hc, rfl⟩
    exact hl c hc
  refine ⟨?_, ?_, ?_⟩
  · rw [weightAt_stdWeights, weightAt_stdWeights]
    exact hcore _ _ (hsum_nonneg pre hpre) (hsum_nonneg post hpost)
  · intro hbp hbp'
    rw [weightAt_evmWeights_mixed pre post b tvl hbp,
      weightAt_evmWeights_mixed pre post b' tvl hbp']
    exact hcore _ _
      (hsum_nonneg _ fun x hx => hpre x (List.mem_of_mem_filter hx))
      (hsum_nonneg _ fun x hx => hpost x (List.mem_of_mem_filter hx))
  · intro selected w hw hwother
    unfold evmWeights at hw
    rcases List.mem_append.1 hw with hw | hw
    · rcases List.mem_map.1 hw with ⟨c, hc, rfl⟩
      have hcp : c.isPreferred = true := (List.mem_filter.1 hc).2
      rw [show (prefEntry (((selected.filter (·.isPreferred)).map (·.boostedAPY)).sum)
        tvl c).b = c from rfl] at hwother
      rw [hcp] at hwother
      cases hwother
    · rcases List.mem_map.1 hw with ⟨c, hc, rfl⟩
      show c.boostedAPY / _ * OTHER_TARGET = 0
      rw [OTHER_TARGET, mul_zero]

/-- C9 (witness): monotonicity at a concrete mixed selection — a
non-preferred strategy (APY 7) beside a preferred one whose APY is raised
from 10 to 20 — exercising the Policy B conjunct and the Policy A
preferred-group conjunct. -/
theorem C9_monotone_witness :
    (∀ x ∈ [toBoosted (sampleStrategy "n" "acme" "USDT" "ethereum" 7)],
      0 ≤ x.boostedAPY) ∧
    (0 ≤ (toBoosted (sampleStrategy "p" "curve" "USDC" "ethereum" 10)).boostedAPY) ∧
    ((toBoosted (sampleStrategy "p" "curve" "USDC" "ethereum" 10)).boostedAPY ≤
      (toBoosted (sampleStrategy "p" "curve" "USDC" "ethereum" 20)).boostedAPY) ∧
    ((toBoosted (sampleStrategy "p" "curve" "USDC" "ethereum" 10)).isPreferred = true) ∧
    ((toBoosted (sampleStrategy "p" "curve" "USDC" "ethereum" 20)).isPreferred = true) ∧
    (weightAt (stdWeights ([toBoosted (sampleStrategy "n" "acme" "USDT" "ethereum" 7)] ++
        toBoosted (sampleStrategy "p" "curve" "USDC" "ethereum" 10) :: []) 100) 1 ≤
      weightAt (stdWeights ([toBoosted (sampleStrategy "n" "acme" "USDT" "ethereum" 7)] ++
        toBoosted (sampleStrategy "p" "curve" "USDC" "ethereum" 20) :: []) 100) 1) ∧
    (weightAt (evmWeights ([toBoosted (sampleStrategy "n" "acme" "USDT" "ethereum" 7)] ++
        toBoosted (sampleStrategy "p" "curve" "USDC" "ethereum" 10) :: []) 100)
        (([toBoosted (sampleStrategy "n" "acme" "USDT" "ethereum" 7)].filter
          (·.isPreferred)).length) ≤
      weightAt (evmWeights ([toBoosted (sampleStrategy "n" "acme" "USDT" "ethereum" 7)] ++
        toBoosted (sampleStrategy "p" "curve" "USDC" "ethereum" 20) :: []) 100)
        (([toBoosted (sampleStrategy "n" "acme" "USDT" "ethereum" 7)].filter
          (·.isPreferred)).length)) :=
  ⟨by decide, by decide, by decide, by decide, by decide,
   (C9_monotone [toBoosted (sampleStrategy "n" "acme" "USDT" "ethereum" 7)] []
     (toBoosted (sampleStrategy "p" "curve" "USDC" "ethereum" 10))
     (toBoosted (sampleStrategy "p" "curve" "USDC" "ethereum" 20)) 100
     (by decide) (by decide) (by decide) (by decide)).1,
   (C9_monotone [toBoosted (sampleStrategy "n" "acme" "USDT" "ethereum" 7)] []
     (toBoosted (sampleStrategy "p" "curve" "USDC" "ethereum" 10))
     (toBoosted (sampleStrategy "p" "curve" "USDC" "ethereum" 20)) 100
     (by decide) (by decide) (by decide) (by decide)).2.1 (by decide) (by decide)⟩

/-! ## Claim C8 -/

theorem weightMapGet_mem {l : List WEntry} {id : String} {w : WEntry}
    (h : weightMapGet l id = some w) : w ∈ l := by
  induction l with
  | nil => cases h
  | cons x xs ih =>
    rw [weightMapGet_cons] at h
    cases hxs : weightMapGet xs id with
    | some v =>
      rw [hxs] at h
      cases h
      exact List.mem_cons_of_mem x (ih hxs)
    | none =>
      rw [hxs] at h
      by_cases hx : (x.b.s.id == id) = true
      · rw [if_pos hx] at h
        cases h
        exact List.mem_cons_self _ _
      · rw [if_neg hx] at h
        cases h

theorem weightMapGet_some_wid {l : List WEntry} {id : String} {w : WEntry}
    (h : weightMapGet l id = some w) : wid w = id := by
  induction l with
  | nil => cases h
  | cons x xs ih =>
    rw [weightMapGet_cons] at h
    cases hxs : weightMapGet xs id with
    | some v =>
      rw [hxs] at h
      cases h
      exact ih hxs
    | none =>
      rw [hxs] at h
      by_cases hx : (x.b.s.id == id) = true
      · rw [if_pos hx] at h
        cases h
        exact beq_iff_eq.1 hx
      · rw [if_neg hx] at h
        cases h

theorem weightedFor_allocated (strategies : List Strategy) (tvl : ℚ) (chain : Option String) :
    ∀ w ∈ weightedFor strategies tvl chain, w.allocated = w.weight * tvl := by
  intro w hw
  unfold weightedFor at hw
  split at hw
  · unfold evmWeights at hw
    rcases List.mem_append.1 hw with hw | hw
    · rcases List.mem_map.1 hw with ⟨b, _, rfl⟩
      rfl
    · rcases List.mem_map.1 hw with ⟨b, _, rfl⟩
      rfl
  · unfold stdWeights at hw
    rcases List.mem_map.1 hw with ⟨b, _, rfl⟩
    rfl

theorem weightedFor_b_mem (strategies : List Strategy) (tvl : ℚ) (chain : Option String) :
    ∀ w ∈ weightedFor strategies tvl chain, w.b ∈ selectedFor strategies chain := by
  intro w hw
  unfold weightedFor at hw
  split at hw
  · unfold evmWeights at hw
    rcases List.mem_append.1 hw with hw | hw
    · rcases List.mem_map.1 hw with ⟨b, hb, rfl⟩
      show b ∈ selectedFor strategies chain
      exact List.mem_of_mem_filter hb
    · rcases List.mem_map.1 hw with ⟨b, hb, rfl⟩
      show b ∈ selectedFor strategies chain
      exact List.mem_of_mem_filter hb
  · unfold stdWeights at hw
    rcases List.mem_map.1 hw with ⟨b, hb, rfl⟩
    exact hb

/-- C8 (counterexample): with two input strategies sharing the id `p` on a
non-EVM chain, both are selected (30-day APYs 30 and 10, proportional weights
3/4 and 1/4), but the returned list gives both entries the weight of the last
map insertion, 1/4 — the strategy with APY 30 does not carry its computed
weight 3/4. -/
theorem C8_counterexample :
    (calculateOptimalWeights
      [sampleStrategy "p" "x" "USDT" "solana" 30, sampleStrategy "p" "y" "USDT" "solana" 10]
      100 (some "solana")).map Strategy.weight = [1 / 4, 1 / 4] ∧
    (selectedFor [sampleStrategy "p" "x" "USDT" "solana" 30,
      sampleStrategy "p" "y" "USDT" "solana" 10] (some "solana")).map (·.boostedAPY) =
      [30, 10] ∧
    (1 : ℚ) / 4 ≠ 30 / (30 + 10) := by
  have hsel : selectedFor
      [sampleStrategy "p" "x" "USDT" "solana" 30, sampleStrategy "p" "y" "USDT" "solana" 10]
      (some "solana") =
      [toBoosted (sampleStrategy "p" "x" "USDT" "solana" 30),
       toBoosted (sampleStrategy "p" "y" "USDT" "solana" 10)] := by
    unfold selectedFor
    rw [if_neg (by decide)]
    norm_num [boostAndSort, toBoosted, sortByDesc, insertByDesc, stdSelect, stdSelectGo,
      sampleStrategy, MAX_STRATEGIES, TARGET_COVERAGE, PREFERRED_PROTOCOLS, jsIncludes,
      jsToLower, containsChars, startsWith]
  have hw : weightedFor
      [sampleStrategy "p" "x" "USDT" "solana" 30, sampleStrategy "p" "y" "USDT" "solana" 10]
      100 (some "solana") =
      [stdEntry 40 100 (toBoosted (sampleStrategy "p" "x" "USDT" "solana" 30)),
       stdEntry 40 100 (toBoosted (sampleStrategy "p" "y" "USDT" "solana" 10))] := by
    unfold weightedFor
    rw [if_neg (by decide), hsel]
    norm_num [stdWeights, toBoosted, sampleStrategy]
  refine ⟨?_, ?_, by norm_num⟩
  · unfold calculateOptimalWeights
    rw [if_neg (by decide), hw]
    norm_num [remapStrategies, weightMapGet, stdEntry, toBoosted, sampleStrategy, jsOrZero]
  · rw [hsel]
    rfl

/-- C8 (amended): provided the input strategies have pairwise-distinct ids,
`calculateOptimalWeights` returns exactly one entry per input strategy, in
input order, each equal to its input except for `weight` and `allocated`;
every returned entry satisfies `allocated = weight × totalVaultValue`;
strategies whose id is not among the selected ids are not in the weight map
(so they come back with weight 0 and allocated 0); and a weight-map hit for a
strategy's id is the entry computed from that very strategy. -/
theorem C8_frame (strategies : List Strategy) (totalTVL : ℚ) (chain : Option String)
    (hids : (strategies.map Strategy.id).Nodup) :
    calculateOptimalWeights strategies totalTVL chain =
      strategies.map (fun s =>
        match weightMapGet (weightedFor strategies totalTVL chain) s.id with
        | some w => { s with weight := w.weight, allocated := w.weight * totalTVL }
        | none => { s with weight := 0, allocated := 0 }) ∧
    (∀ s ∈ calculateOptimalWeights strategies totalTVL chain,
      s.allocated = s.weight * totalTVL) ∧
    (∀ s ∈ strategies, s.id ∉ (selectedFor strategies chain).map (fun b => b.s.id) →
      weightMapGet (weightedFor strategies totalTVL chain) s.id = none) ∧
    (∀ s ∈ strategies, ∀ w,
      weightMapGet (weightedFor strategies totalTVL chain) s.id = some w →
      w.b = toBoosted s) := by
  have hmap : calculateOptimalWeights strategies totalTVL chain =
      strategies.map (fun s =>
        match weightMapGet (weightedFor strategies totalTVL chain) s.id with
        | some w => { s with weight := w.weight, allocated := w.weight * totalTVL }
        | none => { s with weight := 0, allocated := 0 }) := by
    unfold calculateOptimalWeights
    split
    · rename_i hempty
      rw [List.isEmpty_iff] at hempty
      rw [hempty]
      rfl
    · unfold remapStrategies
      refine List.map_congr_left fun s _ => ?_
      cases hget : weightMapGet (weightedFor strategies totalTVL chain) s.id with
      | none => rfl
      | some w =>
        have halloc := weightedFor_allocated strategies totalTVL chain w
          (weightMapGet_mem hget)
        simp only [jsOrZero_eq, halloc]
  refine ⟨hmap, ?_, ?_, ?_⟩
  · intro s hs
    rw [hmap] at hs
    rcases List.mem_map.1 hs with ⟨s0, _, rfl⟩
    cases hget : weightMapGet (weightedFor strategies totalTVL chain) s0.id with
    | none =>
      simp only [hget]
      show (0 : ℚ) = 0 * totalTVL
      rw [zero_mul]
    | some w =>
      simp only [hget]
  · intro s _ hnot
    refine weightMapGet_eq_none _ _ fun hmem => hnot ?_
    exact ((weightedFor_ids_perm strategies totalTVL chain).mem_iff).1 hmem
  · intro s hs w hget
    have hwmem := weightMapGet_mem hget
    have hwid := weightMapGet_some_wid hget
    have hbmem := weightedFor_b_mem strategies totalTVL chain w hwmem
    have hmem2 := (selectedFor_subperm strategies chain).subset hbmem
    rcases List.mem_map.1 hmem2 with ⟨s1, hs1, heq⟩
    have hid : s1.id = s.id := by
      rw [← hwid]
      show s1.id = w.b.s.id
      rw [← heq]
      rfl
    have hss : s1 = s := List.inj_on_of_nodup_map hids hs1 hs hid
    rw [← heq, hss]

/-- C8 (witness): the frame theorem applied at a concrete two-strategy
duplicate-free input. -/
theorem C8_frame_witness :
    (([sampleStrategy "a" "x" "USDT" "solana" 30,
       sampleStrategy "b" "y" "USDT" "solana" 10].map Strategy.id).Nodup) ∧
    (∀ s ∈ calculateOptimalWeights
        [sampleStrategy "a" "x" "USDT" "solana" 30,
         sampleStrategy "b" "y" "USDT" "solana" 10] 100 (some "solana"),
      s.allocated = s.weight * 100) :=
  ⟨by decide,
   (C8_frame [sampleStrategy "a" "x" "USDT" "solana" 30,
      sampleStrategy "b" "y" "USDT" "solana" 10] 100 (some "solana") (by decide)).2.1⟩

/-! ## Claim C5 -/

/-- Following the claim wording: walk the sorted eligible strategies, add the
next strategy, and stop as soon as the cumulative 30-day mean APY reaches the
target (the crossing strategy is included) or the remaining capacity is
exhausted. -/
def specGreedyGo (target : ℚ) : Nat → ℚ → List Strategy → List Strategy
  | _, _, [] => []
  | 0, _, _ => []
  | Nat.succ n, tot, s :: rest =>
    if target ≤ tot + s.apyMean30d then [s]
    else s :: specGreedyGo target n (tot + s.apyMean30d) rest

/-- The selection exactly as claim C5 words it: the greedy prefix of the
eligible strategies sorted descending by 30-day mean APY (ties keeping input
order), stopping as soon as the cumulative 30-day mean APY reaches 90% of the
sum over all eligible strategies, or 20 strategies have been selected. -/
def specGreedySelect (eligible : List Strategy) : List Strategy :=
  specGreedyGo (9 / 10 * (eligible.map Strategy.apyMean30d).sum) 20 0
    (sortByDesc Strategy.apyMean30d eligible)

theorem sum_pos_of_all_ge (l : List ℚ) (c : ℚ) (hc : 0 < c) (h : ∀ x ∈ l, c ≤ x)
    (hne : l ≠ []) : 0 < l.sum := by
  cases l with
  | nil => exact absurd rfl hne
  | cons x xs =>
    rw [List.sum_cons]
    have hx := h x (by simp)
    have hxs : 0 ≤ xs.sum := List.sum_nonneg fun y hy => le_trans hc.le (h y (by simp [hy]))
    linarith

theorem stdSelectGo_spec (tp : ℚ) (htp : 0 < tp) :
    ∀ (n : Nat) (tot : ℚ) (l : List Strategy),
      (stdSelectGo tp n tot (l.map toBoosted)).map (·.s) =
        specGreedyGo (9 / 10 * tp) n tot l := by
  intro n tot l
  induction l generalizing n tot with
  | nil => cases n <;> rfl
  | cons s rest ih =>
    cases n with
    | zero => rfl
    | succ n =>
      show (if (9 : ℚ) / 10 ≤ (tot + s.apyMean30d) / tp then [toBoosted s]
          else toBoosted s ::
            stdSelectGo tp n (tot + s.apyMean30d) (rest.map toBoosted)).map (·.s) =
        if 9 / 10 * tp ≤ tot + s.apyMean30d then [s]
        else s :: specGreedyGo (9 / 10 * tp) n (tot + s.apyMean30d) rest
      have hcond : ((9 : ℚ) / 10 ≤ (tot + s.apyMean30d) / tp) ↔
          (9 / 10 * tp ≤ tot + s.apyMean30d) := le_div_iff htp
      by_cases h : 9 / 10 * tp ≤ tot + s.apyMean30d
      · rw [if_pos (hcond.2 h), if_pos h]
        rfl
      · rw [if_neg (fun hc => h (hcond.1 hc)), if_neg h]
        rw [List.map_cons, ih n (tot + s.apyMean30d)]
        rfl

/-- A pool whose 30-day mean APY dwarfs the rest, for the C5 counterexample. -/
def c5BigPool : DefiLlamaPool :=
  { chain := "Solana", project := "kamino", symbol := "USDC", tvlUsd := 1000000,
    apyBase := some 1, apyReward := some 0, apy := 1, apyMean30d := some 4470,
    stablecoin := true, pool := "big" }

/-- A small-APY pool replicated 100 times, for the C5 counterexample. -/
def c5SmallPool : DefiLlamaPool :=
  { chain := "Solana", project := "save", symbol := "USDT", tvlUsd := 1000000,
    apyBase := some 1, apyReward := some 0, apy := 1, apyMean30d := some 5,
    stablecoin := true, pool := "small" }

/-- A feed of 101 eligible pools: one at 4470% and one hundred at 5%. -/
def c5Pools : List DefiLlamaPool := c5BigPool :: List.replicate 100 c5SmallPool

def c5BigStrategy : Strategy := poolToStrategy "solana" 0 c5BigPool

def c5SmallStrategy : Strategy := poolToStrategy "solana" 0 c5SmallPool

/-- C5 (counterexample): with 101 eligible pools (30-day mean APYs 4470 and
one hundred times 5), the vault pipeline's `getTopStrategies(chain, 100)`
truncation makes the code's 90% target `0.9 × 4965 = 4468.5` (the sum over the
top 100 only), so the selection stops after the single 4470 strategy
(coverage ≈ 0.9003); the claim's greedy prefix over *all* eligible strategies
has target `0.9 × 4970 = 4473 > 4470` and therefore contains two strategies.
The selected set is not the claim's greedy prefix. -/
theorem C5_counterexample :
    ((selectedFor (getTopStrategies "solana" 100 0 c5Pools) (some "solana")).map
      fun b => b.s.id) = ["big"] ∧
    (specGreedySelect (eligibleStrategies "solana" 0 c5Pools)).map Strategy.id =
      ["big", "small"] := by
  have hel : eligibleStrategies "solana" 0 c5Pools =
      c5BigStrategy :: List.replicate 100 c5SmallStrategy := by rfl
  have htop : getTopStrategies "solana" 100 0 c5Pools =
      c5BigStrategy :: List.replicate 99 c5SmallStrategy := by rfl
  have hboost : boostAndSort (c5BigStrategy :: List.replicate 99 c5SmallStrategy) =
      toBoosted c5BigStrategy :: List.replicate 99 (toBoosted c5SmallStrategy) := by rfl
  have hapyB : (toBoosted c5BigStrategy).boostedAPY = 4470 := by rfl
  have hapyS : (toBoosted c5SmallStrategy).boostedAPY = 5 := by rfl
  have hsum99 : (((toBoosted c5BigStrategy ::
      List.replicate 99 (toBoosted c5SmallStrategy)).map (·.boostedAPY)).sum : ℚ) = 4965 := by
    rw [List.map_cons, List.map_replicate, List.sum_cons, List.sum_replicate, hapyB, hapyS]
    norm_num [nsmul_eq_mul]
  have hgo : stdSelectGo 4965 MAX_STRATEGIES 0
      (toBoosted c5BigStrategy :: List.replicate 99 (toBoosted c5SmallStrategy)) =
      [toBoosted c5BigStrategy] := by
    show (if (9 : ℚ) / 10 ≤ (0 + (toBoosted c5BigStrategy).boostedAPY) / 4965
        then [toBoosted c5BigStrategy]
        else toBoosted c5BigStrategy ::
          stdSelectGo 4965 19 (0 + (toBoosted c5BigStrategy).boostedAPY)
            (List.replicate 99 (toBoosted c5SmallStrategy))) = [toBoosted c5BigStrategy]
    rw [if_pos (by rw [hapyB]; norm_num)]
  constructor
  · rw [htop]
    unfold selectedFor
    rw [if_neg (by decide), hboost]
    unfold stdSelect
    rw [hsum99]
    show (stdSelectGo 4965 MAX_STRATEGIES 0
        (toBoosted c5BigStrategy :: List.replicate 99 (toBoosted c5SmallStrategy))).map
      (fun b => b.s.id) = ["big"]
    rw [hgo]
    rfl
  · rw [hel]
    unfold specGreedySelect
    have hsum100 : (((c5BigStrategy :: List.replicate 100 c5SmallStrategy).map
        Strategy.apyMean30d).sum : ℚ) = 4970 := by
      rw [List.map_cons, List.map_replicate, List.sum_cons, List.sum_replicate]
      show (toBoosted c5BigStrategy).boostedAPY +
        100 • (toBoosted c5SmallStrategy).boostedAPY = 4970
      rw [hapyB, hapyS]
      norm_num [nsmul_eq_mul]
    rw [hsum100]
    have hsort : sortByDesc Strategy.apyMean30d
        (c5BigStrategy :: List.replicate 100 c5SmallStrategy) =
        c5BigStrategy :: List.replicate 100 c5SmallStrategy := by rfl
    rw [hsort]
    have hrep : List.replicate 100 c5SmallStrategy =
        c5SmallStrategy :: List.replicate 99 c5SmallStrategy := by rfl
    have hgo2 : specGreedyGo (9 / 10 * 4970) 20 0
        (c5BigStrategy :: List.replicate 100 c5SmallStrategy) =
        [c5BigStrategy, c5SmallStrategy] := by
      show (if (9 : ℚ) / 10 * 4970 ≤ 0 + c5BigStrategy.apyMean30d then [c5BigStrategy]
          else c5BigStrategy :: specGreedyGo (9 / 10 * 4970) 19 (0 + c5BigStrategy.apyMean30d)
            (List.replicate 100 c5SmallStrategy)) = [c5BigStrategy, c5SmallStrategy]
      have hB : c5BigStrategy.apyMean30d = 4470 := hapyB
      have hS : c5SmallStrategy.apyMean30d = 5 := hapyS
      rw [if_neg (by rw [hB]; norm_num)]
      rw [hrep]
      show c5BigStrategy ::
          (if (9 : ℚ) / 10 * 4970 ≤ 0 + c5BigStrategy.apyMean30d + c5SmallStrategy.apyMean30d
          then [c5SmallStrategy]
          else c5SmallStrategy :: specGreedyGo (9 / 10 * 4970) 18
            (0 + c5BigStrategy.apyMean30d + c5SmallStrategy.apyMean30d)
            (List.replicate 99 c5SmallStrategy)) = [c5BigStrategy, c5SmallStrategy]
      rw [if_pos (by rw [hB, hS]; norm_num)]
    rw [hgo2]
    rfl

/-- C5 (amended): for a non-EVM (Policy B) chain and any limit, the strategies
selected by `calculateOptimalWeights` are exactly the greedy prefix of the
top-`limit` eligible strategies — the output of `getTopStrategies` (the at
most `limit` highest eligible strategies, 100 in the vault pipeline), sorted
descending by 30-day mean APY with ties keeping input order — accumulated
until the cumulative 30-day mean APY reaches 90% of the sum over those
top-`limit` strategies (the crossing strategy included), or 20 strategies are
selected, whichever happens first. -/
theorem C5_policyB (chain : String) (limit : Nat) (now : ℚ) (pools : List DefiLlamaPool)
    (hnonEVM : isEVMChain (some chain) = false) :
    (selectedFor (getTopStrategies chain limit now pools) (some chain)).map (·.s) =
      specGreedySelect (getTopStrategies chain limit now pools) := by
  have hsorted : (getTopStrategies chain limit now pools).Pairwise
      (fun a b => b.apyMean30d ≤ a.apyMean30d) := by
    unfold getTopStrategies
    exact List.Pairwise.sublist (List.take_sublist _ _)
      (sortByDesc_pairwise Strategy.apyMean30d (eligibleStrategies chain now pools))
  have hself : sortByDesc Strategy.apyMean30d (getTopStrategies chain limit now pools) =
      getTopStrategies chain limit now pools :=
    sortByDesc_eq_self _ _ hsorted
  have hboost : boostAndSort (getTopStrategies chain limit now pools) =
      (getTopStrategies chain limit now pools).map toBoosted := by
    unfold boostAndSort
    rw [sortByDesc_map Strategy.apyMean30d BStrategy.boostedAPY toBoosted (fun a => rfl),
      hself]
  unfold selectedFor
  rw [if_neg (by rw [hnonEVM]; exact Bool.false_ne_true), hboost]
  unfold stdSelect
  have htp_eq : (((getTopStrategies chain limit now pools).map toBoosted).map
      (·.boostedAPY)).sum =
      ((getTopStrategies chain limit now pools).map Strategy.apyMean30d).sum := by
    rw [List.map_map]
    rfl
  rw [htp_eq]
  unfold specGreedySelect
  rw [hself]
  by_cases hnil : getTopStrategies chain limit now pools = []
  · rw [hnil]
    rfl
  · have hall5 : ∀ x ∈ (getTopStrategies chain limit now pools).map Strategy.apyMean30d,
        (5 : ℚ) ≤ x := by
      intro x hx
      rcases List.mem_map.1 hx with ⟨s, hs, rfl⟩
      have hs2 : s ∈ eligibleStrategies chain now pools := by
        have h1 : s ∈ sortByDesc Strategy.apyMean30d (eligibleStrategies chain now pools) :=
          List.take_subset _ _ hs
        exact (sortByDesc_perm Strategy.apyMean30d
          (eligibleStrategies chain now pools)).mem_iff.1 h1
      have := (List.mem_filter.1 hs2).2
      rw [decide_eq_true_eq] at this
      exact this
    have hpos : 0 < ((getTopStrategies chain limit now pools).map Strategy.apyMean30d).sum :=
      sum_pos_of_all_ge _ 5 (by norm_num) hall5
        (fun hmap => hnil (List.map_eq_nil.1 hmap))
    exact stdSelectGo_spec _ hpos MAX_STRATEGIES 0 (getTopStrategies chain limit now pools)

/-- A concrete Solana pool for the C5 witness. -/
def samplePoolSolana : DefiLlamaPool :=
  { chain := "Solana", project := "kamino", symbol := "USDC", tvlUsd := 1000000,
    apyBase := some 8, apyReward := some 0, apy := 8, apyMean30d := some 8,
    stablecoin := true, pool := "sol-1" }

/-- C5 (witness): the amended Policy B characterization at a one-pool Solana
feed. -/
theorem C5_policyB_witness :
    (isEVMChain (some "solana") = false) ∧
    ((selectedFor (getTopStrategies "solana" 100 0 [samplePoolSolana]) (some "solana")).map
        (·.s) =
      specGreedySelect (getTopStrategies "solana" 100 0 [samplePoolSolana])) :=
  ⟨by decide, C5_policyB "solana" 100 0 [samplePoolSolana] (by decide)⟩

end TSV
